import Mathlib

/-!
# vlt: a local secret-management CLI (`main.go`)

A shallow embedding of `main.go` and a verification development over it.

Modelling conventions.

* A Go `string` / `[]byte` is a Lean `String`, a sequence of Unicode characters (the text is
  taken to be valid UTF-8); the conversions `[]byte(s)` and `string(b)` are the identity.
* A Go `error` is a value of `Error`; a Go result `(T, error)` of a function of
  this program is a pair `T × Option Error`; a result `(*T, error)` of the
  OpenPGP library is an `Except Error T`.
* The process state is a `World`: the file system, the process environment, a clock, and the
  trace of effects performed so far (most recent first).
* The file system is a map from paths to contents.  A file is absent, or present and readable:
  reading fails exactly on an absent path.  Writing and removing may be refused by the
  operating system; a refused write may leave the file damaged, a refused removal leaves the
  file as it is.
* Everything outside the program is a parameter, gathered in `Sys`: the OpenPGP
  library (`CryptoLib`), standard input, the points at which the operating
  system may refuse an operation, the editor and the shell.  A randomised or
  fallible outside operation receives the current clock value, so two calls
  with the same arguments at different times may behave differently.
* A `void` command returns the `World` it leaves; `editCmd` returns in addition the `return`
  statement at which it ends (`EditExit`).
-/

namespace Vlt

/-! ## Errors, events, world -/

/-- A Go `error` value. -/
inductive Error where
  | ErrNotExist (path : String)
  | ErrExist (path : String)
  | EOF
  | EINVAL
  | Other (msg : String)
deriving DecidableEq, Repr

/-- The text of an error, as `%v` prints it. -/
def Error.text : Error → String
  | .ErrNotExist path => "open " ++ path ++ ": no such file or directory"
  | .ErrExist path => "open " ++ path ++ ": file exists"
  | .EOF => "EOF"
  | .EINVAL => "invalid argument"
  | .Other msg => msg

/-- Go `os.IsNotExist`. -/
def IsNotExist : Option Error → Bool
  | some (.ErrNotExist _) => true
  | _ => false

/-- The functions of `main.go` whose calls are recorded in the trace. -/
inductive Fn where
  | promptPassword | generateKey | decryptPgpFile | encryptPgpFile
deriving DecidableEq, Repr

/-- The functions of the OpenPGP library (`gopenpgp/v2/crypto`) used by `main.go`. -/
inductive LibFn where
  | GenerateKey | Lock | Armor | NewPGPMessageFromArmored | NewKeyFromArmored
  | IsLocked | Unlock | NewKeyRing | NewPlainMessage | Encrypt | Decrypt
  | GetArmored | GetBinary
deriving DecidableEq, Repr

/-- An effect performed by the program.  A file-system event is recorded when the
operation is attempted, except `TempFile`, recorded when the file has been created, and
`Remove`, recorded with the error that `os.Remove` returns. -/
inductive Event where
  | Print (s : String)
  | Call (fn : Fn)
  | Lib (fn : LibFn)
  | ReadFile (path : String)
  | WriteFile (path data : String) (perm : Nat)
  | Stat (path : String)
  | TempFile (name : String)
  | Write (name data : String)
  | Close (name : String)
  | Remove (name : String) (err : Option Error)
  | Run (name : String) (args : List String)
  | Setenv (key value : String)
deriving DecidableEq, Repr

/-- The file system: a map from paths to file contents. -/
abbrev FS := String → Option String

/-- The state of the process and of the machine it runs on. -/
structure World where
  fs : FS
  environ : List (String × String)
  clock : Nat
  trace : List Event

/-- Record an event. -/
def World.log (w : World) (e : Event) : World :=
  { w with trace := e :: w.trace }

/-- Advance the clock (after consulting the outside world). -/
def World.tick (w : World) : World :=
  { w with clock := w.clock + 1 }

/-- Replace the file system. -/
def World.setFS (w : World) (fs : FS) : World :=
  { w with fs := fs }

/-! ## The outside world -/

/-- The part of `github.com/ProtonMail/gopenpgp/v2/crypto` that `main.go` calls, with the
library's own signatures.  `GenerateKey name email keyType bits`, `Lock` and `Encrypt` are
randomised: their last argument is the entropy they draw. -/
structure CryptoLib where
  Key : Type
  KeyRing : Type
  PGPMessage : Type
  PlainMessage : Type
  GenerateKey : (name email keyType : String) → (bits : Nat) → Nat → Except Error Key
  Lock : Key → (passphrase : String) → Nat → Except Error Key
  Armor : Key → Except Error String
  NewPGPMessageFromArmored : String → Except Error PGPMessage
  NewKeyFromArmored : String → Except Error Key
  IsLocked : Key → Except Error Bool
  Unlock : Key → (passphrase : String) → Except Error Key
  NewKeyRing : Key → Except Error KeyRing
  NewPlainMessage : String → PlainMessage
  GetBinary : PlainMessage → String
  Encrypt : KeyRing → PlainMessage → (privateKey : Option KeyRing) → Nat → Except Error PGPMessage
  Decrypt : KeyRing → PGPMessage → (verifyKey : Option KeyRing) → (verifyTime : Int) →
    Except Error PlainMessage
  GetArmored : PGPMessage → Except Error String

/-- Everything `main.go` depends on and does not define.

* `ReadString t`: what `bufio.Reader.ReadString` on standard input returns at time `t`.
* `WriteFileErr t path data`: `none` when `ioutil.WriteFile` succeeds; `some (e, left)` when it
  fails with `e`, leaving `left` at `path` (a failed write may have truncated the file).
* `TempFileName t`: the name `ioutil.TempFile` picks, or the error it fails with.
* `WriteErr t name data`: `none` when `tmpfile.Write` succeeds; `some (e, left)` when it fails
  with `e` having written `left`.
* `CloseErr t name`: the error of `tmpfile.Close`, if any.
* `RemoveErr t name`: `none` when `os.Remove` removes the existing file `name`; `some e` when
  the operating system refuses with `e` and the file stays.
* `Editor`, `Shell`: the external processes. -/
structure Sys where
  lib : CryptoLib
  ReadString : Nat → Except Error String
  WriteFileErr : Nat → String → String → Option (Error × Option String)
  TempFileName : Nat → Except Error String
  WriteErr : Nat → String → String → Option (Error × String)
  CloseErr : Nat → String → Option Error
  RemoveErr : Nat → String → Option Error
  /-- The external editor, as the specification describes this collaborator (§6): it is handed
  the path of the scratch file, mutates that file in place and exits with a status.  `Editor t
  name path content` is the error of `cmdEditor.Run()` (if any) and the state in which the
  process leaves the file at `path` (`none`: removed), given its state `content` when it
  starts. -/
  Editor : Nat → (name path : String) → (content : Option String) → Option Error × Option String
  /-- The external shell, as the specification describes this collaborator (§6): it receives
  the process environment.  `Shell t name env` is the error of `shellCmd.Run()`, if any. -/
  Shell : Nat → (name : String) → (env : List (String × String)) → Option Error

/-! ## Go standard library -/

/-- Go `unicode.IsSpace`. -/
def isSpace (c : Char) : Bool :=
  let n := c.toNat
  n = 0x09 || n = 0x0A || n = 0x0B || n = 0x0C || n = 0x0D || n = 0x20 || n = 0x85 || n = 0xA0
    || n = 0x1680 || (0x2000 ≤ n && n ≤ 0x200A) || n = 0x2028 || n = 0x2029 || n = 0x202F
    || n = 0x205F || n = 0x3000

/-- Go `strings.TrimLeftFunc(s, unicode.IsSpace)` on the runes of a string. -/
def trimLeft (s : List Char) : List Char :=
  s.dropWhile isSpace

/-- Go `strings.TrimRightFunc(s, unicode.IsSpace)` on the runes of a string. -/
def trimRight (s : List Char) : List Char :=
  (s.reverse.dropWhile isSpace).reverse

/-- Go `strings.TrimSpace`: all leading and trailing white space removed. -/
def TrimSpace (s : String) : String :=
  ⟨trimRight (trimLeft s.data)⟩

/-- Go `strings.HasPrefix(s, string(c))` for a one-character prefix. -/
def HasPrefix (s : String) (c : Char) : Bool :=
  match s.data with
  | [] => false
  | d :: _ => d == c

/-- Go `strings.Index(s, sep)` for a one-character `sep`, as the text before the first
occurrence and the text after it; `none` when `sep` does not occur (Go returns -1). -/
def cutAt (sep : Char) : List Char → Option (List Char × List Char)
  | [] => none
  | c :: cs =>
    if c = sep then some ([], cs)
    else match cutAt sep cs with
      | none => none
      | some (a, b) => some (c :: a, b)

/-- The loop of `strings.genSplit` for a one-character separator and `n > 0`: at most `n`
substrings, the last one being the unsplit remainder. -/
def genSplit (sep : Char) : (n : Nat) → List Char → List (List Char)
  | 0, _ => []
  | 1, s => [s]
  | n + 2, s =>
    match cutAt sep s with
    | none => [s]
    | some (a, rest) => a :: genSplit sep (n + 1) rest

/-- Go `strings.SplitN(s, string(sep), n)` for `n ≥ 0`. -/
def SplitN (s : String) (sep : Char) (n : Nat) : List String :=
  (genSplit sep n s.data).map String.mk

/-- Go `strings.Split(s, string(sep))`, that is `SplitN` with a count of `-1`, for which
`genSplit` takes `n = strings.Count(s, sep) + 1`. -/
def Split (s : String) (sep : Char) : List String :=
  (genSplit sep (s.data.count sep + 1) s.data).map String.mk

/-- Go `os.ReadFile` / `ioutil.ReadFile`. -/
def ReadFile (path : String) (w : World) : Except Error String × World :=
  let w := w.log (.ReadFile path)
  match w.fs path with
  | none => (.error (.ErrNotExist path), w)
  | some data => (.ok data, w)

/-- Go `ioutil.WriteFile`. -/
def WriteFile (sys : Sys) (path data : String) (perm : Nat) (w : World) : Option Error × World :=
  let w := w.log (.WriteFile path data perm)
  match sys.WriteFileErr w.clock path data with
  | some (err, left) => (some err, (w.setFS (Function.update w.fs path left)).tick)
  | none => (none, (w.setFS (Function.update w.fs path (some data))).tick)

/-- Go `os.Stat`, of which only the error is used. -/
def Stat (path : String) (w : World) : Option Error × World :=
  let w := w.log (.Stat path)
  match w.fs path with
  | none => (some (.ErrNotExist path), w)
  | some _ => (none, w)

/-- Go `ioutil.TempFile("", pattern)`: creates a new, empty file and never reuses an existing
name (the file is opened with `O_EXCL`). -/
def TempFile (sys : Sys) (w : World) : Except Error String × World :=
  match sys.TempFileName w.clock with
  | .error err => (.error err, w.tick)
  | .ok name =>
    match w.fs name with
    | some _ => (.error (.ErrExist name), w.tick)
    | none => (.ok name, ((w.setFS (Function.update w.fs name (some ""))).log (.TempFile name)).tick)

/-- Go `tmpfile.Write` on a file that has just been created. -/
def Write (sys : Sys) (name data : String) (w : World) : Option Error × World :=
  let w := w.log (.Write name data)
  match sys.WriteErr w.clock name data with
  | some (err, left) => (some err, (w.setFS (Function.update w.fs name (some left))).tick)
  | none => (none, (w.setFS (Function.update w.fs name (some data))).tick)

/-- Go `tmpfile.Close`. -/
def Close (sys : Sys) (name : String) (w : World) : Option Error × World :=
  let w := w.log (.Close name)
  (sys.CloseErr w.clock name, w.tick)

/-- Go `os.Remove`: fails on a path that does not exist and when the operating system refuses;
a refused removal leaves the file. -/
def Remove (sys : Sys) (name : String) (w : World) : Option Error × World :=
  match w.fs name with
  | none => (some (.ErrNotExist name), (w.log (.Remove name (some (.ErrNotExist name)))).tick)
  | some _ =>
    match sys.RemoveErr w.clock name with
    | some err => (some err, (w.log (.Remove name (some err))).tick)
    | none => (none, ((w.setFS (Function.update w.fs name none)).log (.Remove name none)).tick)

/-- Go `os.Getenv`: the value of the variable, empty when it is not set. -/
def Getenv (key : String) (w : World) : String :=
  match w.environ.lookup key with
  | some v => v
  | none => ""

/-- The environment after a successful `Setenv`: the entry of `key` is replaced, or added. -/
def setEntry (key value : String) : List (String × String) → List (String × String)
  | [] => [(key, value)]
  | (k, v) :: rest => if k = key then (key, value) :: rest else (k, v) :: setEntry key value rest

/-- The check of `syscall.Setenv`: the key is not empty and contains neither `=` nor NUL, and
the value does not contain NUL. -/
def validEnv (key value : String) : Bool :=
  !(key.data.isEmpty || key.data.any (fun c => c == '=' || c.toNat == 0)
    || value.data.any (fun c => c.toNat == 0))

/-- Go `os.Setenv` (`syscall.Setenv`): fails with `EINVAL`, changing nothing, when the check
fails. -/
def Setenv (key value : String) (w : World) : Option Error × World :=
  let w := w.log (.Setenv key value)
  if validEnv key value then (none, { w with environ := setEntry key value w.environ })
  else (some .EINVAL, w)

/-- The environment after a call `os.Setenv key value`, for `kv = (key, value)`. -/
def setenv (env : List (String × String)) (kv : String × String) : List (String × String) :=
  if validEnv kv.1 kv.2 then setEntry kv.1 kv.2 env else env

/-- Go `exec.Command(name, path).Run()` for the editor, with the terminal inherited. -/
def RunEditor (sys : Sys) (name path : String) (w : World) : Option Error × World :=
  let w := w.log (.Run name [path])
  let r := sys.Editor w.clock name path (w.fs path)
  (r.1, (w.setFS (Function.update w.fs path r.2)).tick)

/-- Go `exec.Command(name).Run()` for the shell, with `Env = os.Environ()`. -/
def RunShell (sys : Sys) (name : String) (w : World) : Option Error × World :=
  let w := w.log (.Run name [])
  (sys.Shell w.clock name w.environ, w.tick)

/-! ## The program (`main.go`) -/

/-- The function `promptPassword` (lines 16-24). -/
def promptPassword (sys : Sys) (prompt : String) (w : World) : (String × Option Error) × World :=
  let w := w.log (.Call .promptPassword)
  let w := w.log (.Print prompt)
  match sys.ReadString w.clock with
  | .error err => (("", some err), w.tick)
  | .ok password => ((TrimSpace password, none), w.tick)

/-- The function `generateKey` (lines 27-44). -/
def generateKey (sys : Sys) (name email passphrase : String) (w : World) :
    (String × Option Error) × World :=
  let w := w.log (.Call .generateKey)
  let w := w.log (.Lib .GenerateKey)
  match sys.lib.GenerateKey name email passphrase 2048 w.clock with
  | .error err => (("", some err), w.tick)
  | .ok key =>
    let w := w.tick.log (.Lib .Lock)
    match sys.lib.Lock key passphrase w.clock with
    | .error err => (("", some err), w.tick)
    | .ok lockedKey =>
      let w := w.tick.log (.Lib .Armor)
      match sys.lib.Armor lockedKey with
      | .error err => (("", some err), w)
      | .ok armored => ((armored, none), w)

/-- Lines 78-86 of `decryptPgpFile`: what follows the `if isLocked` statement, run with the
key `unlockedKeyObj` that statement has set. -/
def decryptPgpFile.withKey (sys : Sys) (message : sys.lib.PGPMessage)
    (unlockedKeyObj : sys.lib.Key) (w : World) : (String × Option Error) × World :=
  let w := w.log (.Lib .NewKeyRing)
  match sys.lib.NewKeyRing unlockedKeyObj with
  | .error err => (("", some err), w)
  | .ok keyRing =>
    let w := w.log (.Lib .Decrypt)
    match sys.lib.Decrypt keyRing message none 0 with
    | .error err => (("", some err), w)
    | .ok decryptedData => ((sys.lib.GetBinary decryptedData, none), w.log (.Lib .GetBinary))

/-- The function `decryptPgpFile` (lines 47-87). -/
def decryptPgpFile (sys : Sys) (encryptedFile privateKeyArmored passphrase : String)
    (w : World) : (String × Option Error) × World :=
  let w := w.log (.Call .decryptPgpFile)
  match ReadFile encryptedFile w with
  | (.error err, w) => (("", some err), w)
  | (.ok encData, w) =>
    let w := w.log (.Lib .NewPGPMessageFromArmored)
    match sys.lib.NewPGPMessageFromArmored encData with
    | .error err => (("", some err), w)
    | .ok message =>
      let w := w.log (.Lib .NewKeyFromArmored)
      match sys.lib.NewKeyFromArmored privateKeyArmored with
      | .error err => (("", some err), w)
      | .ok keyObj =>
        let w := w.log (.Lib .IsLocked)
        match sys.lib.IsLocked keyObj with
        | .error err => (("", some err), w)
        | .ok isLocked =>
          if isLocked then
            let w := w.log (.Lib .Unlock)
            match sys.lib.Unlock keyObj passphrase with
            | .error err => (("", some err), w)
            | .ok unlockedKeyObj => decryptPgpFile.withKey sys message unlockedKeyObj w
          else
            decryptPgpFile.withKey sys message keyObj w

/-- Lines 111-124 of `encryptPgpFile`: what follows the `if isLocked` statement, run with the
key `unlockedKeyObj` that statement has set. -/
def encryptPgpFile.withKey (sys : Sys) (plaintext outputFile : String)
    (unlockedKeyObj : sys.lib.Key) (w : World) : Option Error × World :=
  let w := w.log (.Lib .NewKeyRing)
  match sys.lib.NewKeyRing unlockedKeyObj with
  | .error err => (some err, w)
  | .ok keyRing =>
    let w := w.log (.Lib .NewPlainMessage)
    let message := sys.lib.NewPlainMessage plaintext
    let w := w.log (.Lib .Encrypt)
    match sys.lib.Encrypt keyRing message none w.clock with
    | .error err => (some err, w.tick)
    | .ok encryptedMessage =>
      let w := w.tick.log (.Lib .GetArmored)
      match sys.lib.GetArmored encryptedMessage with
      | .error err => (some err, w)
      | .ok encryptedArmored => WriteFile sys outputFile encryptedArmored 0o644 w

/-- The function `encryptPgpFile` (lines 90-125). -/
def encryptPgpFile (sys : Sys) (plaintext privateKeyArmored passphrase outputFile : String)
    (w : World) : Option Error × World :=
  let w := w.log (.Call .encryptPgpFile)
  let w := w.log (.Lib .NewKeyFromArmored)
  match sys.lib.NewKeyFromArmored privateKeyArmored with
  | .error err => (some err, w)
  | .ok keyObj =>
    let w := w.log (.Lib .IsLocked)
    match sys.lib.IsLocked keyObj with
    | .error err => (some err, w)
    | .ok isLocked =>
      if isLocked then
        let w := w.log (.Lib .Unlock)
        match sys.lib.Unlock keyObj passphrase with
        | .error err => (some err, w)
        | .ok unlockedKeyObj => encryptPgpFile.withKey sys plaintext outputFile unlockedKeyObj w
      else
        encryptPgpFile.withKey sys plaintext outputFile keyObj w

/-- The function `initCmd` (lines 128-145). -/
def initCmd (sys : Sys) (w : World) : World :=
  match promptPassword sys "Enter a passphrase for the new key: " w with
  | ((_, some err), w) => w.log (.Print ("Error: " ++ err.text ++ "\n"))
  | ((passphrase, none), w) =>
    match generateKey sys "User" "user@example.com" passphrase w with
    | ((_, some err), w) => w.log (.Print ("Error: " ++ err.text ++ "\n"))
    | ((key, none), w) =>
      match WriteFile sys "private.key" key 0o600 w with
      | (some err, w) => w.log (.Print ("Error: " ++ err.text ++ "\n"))
      | (none, w) => w.log (.Print "Key generated and saved to private.key\n")

/-- The `return` statement (or the end of the function) at which a run of `editCmd` ends. -/
inductive EditExit where
  | noArgs | keyFileError | promptError | createError | decryptError | tempFileError
  | writeError | closeError | editorError | readBackError | encryptError | updated
deriving DecidableEq, Repr

/-- Lines 165-181 of `editCmd`: the plaintext to edit, `decryptedContent`; a new secret file
is created holding the encryption of the empty plaintext, an existing one is decrypted. -/
def editCmd.load (sys : Sys) (secretFile privateKeyData passphrase : String) (w : World) :
    Except EditExit String × World :=
  match Stat secretFile w with
  | (err, w) =>
    if IsNotExist err then
      let w := w.log (.Print "Secret file does not exist. Creating a new one.\n")
      let decryptedContent := ""
      match encryptPgpFile sys decryptedContent privateKeyData passphrase secretFile w with
      | (some err, w) =>
        (.error .createError, w.log (.Print ("Error creating new secret file: " ++ err.text ++ "\n")))
      | (none, w) => (.ok decryptedContent, w)
    else
      match decryptPgpFile sys secretFile privateKeyData passphrase w with
      | ((_, some err), w) => (.error .decryptError, w.log (.Print ("Error: " ++ err.text ++ "\n")))
      | ((decryptedContent, none), w) => (.ok decryptedContent, w)

/-- Lines 195-225 of `editCmd`: what runs between the creation of the scratch file `name` and
its deferred removal. -/
def editCmd.session (sys : Sys) (secretFile privateKeyData passphrase decryptedContent editor
    name : String) (w : World) : EditExit × World :=
  match Write sys name decryptedContent w with
  | (some err, w) => (.writeError, w.log (.Print ("Error: " ++ err.text ++ "\n")))
  | (none, w) =>
    match Close sys name w with
    | (some err, w) => (.closeError, w.log (.Print ("Error: " ++ err.text ++ "\n")))
    | (none, w) =>
      match RunEditor sys editor name w with
      | (some err, w) => (.editorError, w.log (.Print ("Error: " ++ err.text ++ "\n")))
      | (none, w) =>
        match ReadFile name w with
        | (.error err, w) => (.readBackError, w.log (.Print ("Error: " ++ err.text ++ "\n")))
        | (.ok updatedContent, w) =>
          match encryptPgpFile sys updatedContent privateKeyData passphrase secretFile w with
          | (some err, w) => (.encryptError, w.log (.Print ("Error: " ++ err.text ++ "\n")))
          | (none, w) => (.updated, w.log (.Print "Secret file updated.\n"))

/-- The function `editCmd` (lines 148-226). -/
def editCmd (sys : Sys) (args : List String) (w : World) : EditExit × World :=
  match args with
  | [] => (.noArgs, w.log (.Print "Please specify a secret file.\n"))
  | secretFile :: _ =>
    match ReadFile "private.key" w with
    | (.error err, w) => (.keyFileError, w.log (.Print ("Error: " ++ err.text ++ "\n")))
    | (.ok privateKeyData, w) =>
      match promptPassword sys "Enter passphrase for private key: " w with
      | ((_, some err), w) => (.promptError, w.log (.Print ("Error: " ++ err.text ++ "\n")))
      | ((passphrase, none), w) =>
        match editCmd.load sys secretFile privateKeyData passphrase w with
        | (.error ex, w) => (ex, w)
        | (.ok decryptedContent, w) =>
          let editor := if Getenv "EDITOR" w = "" then "vi" else Getenv "EDITOR" w
          match TempFile sys w with
          | (.error err, w) => (.tempFileError, w.log (.Print ("Error: " ++ err.text ++ "\n")))
          | (.ok name, w) =>
            -- defer os.Remove(tmpfile.Name()), whose error is discarded
            match editCmd.session sys secretFile privateKeyData passphrase decryptedContent
                editor name w with
            | (ex, w) => (ex, (Remove sys name w).2)

/-- The function `decodeCmd` (lines 229-254). -/
def decodeCmd (sys : Sys) (args : List String) (w : World) : World :=
  match args with
  | [] => w.log (.Print "Please specify a secret file to decode.\n")
  | secretFile :: _ =>
    match ReadFile "private.key" w with
    | (.error err, w) => w.log (.Print ("Error reading private key: " ++ err.text ++ "\n"))
    | (.ok privateKeyData, w) =>
      match promptPassword sys "Enter passphrase for private key: " w with
      | ((_, some err), w) => w.log (.Print ("Error reading passphrase: " ++ err.text ++ "\n"))
      | ((passphrase, none), w) =>
        match decryptPgpFile sys secretFile privateKeyData passphrase w with
        | ((_, some err), w) => w.log (.Print ("Error decoding file: " ++ err.text ++ "\n"))
        | ((decryptedContent, none), w) =>
          (w.log (.Print "Decoded content:\n")).log (.Print (decryptedContent ++ "\n"))

/-- The body of the loop of `envCmd` (lines 282-292), run on one line of the content. -/
def envCmd.line (w : World) (line : String) : World :=
  if TrimSpace line = "" || HasPrefix line '#' then w
  else
    match SplitN line '=' 2 with
    | [key, value] => (Setenv (TrimSpace key) (TrimSpace value) w).2
    | _ => w.log (.Print ("# Invalid line: " ++ line ++ "\n"))

/-- The function `envCmd` (lines 257-311). -/
def envCmd (sys : Sys) (args : List String) (w : World) : World :=
  match args with
  | [] => w.log (.Print "Please specify a secret file.\n")
  | secretFile :: _ =>
    match ReadFile "private.key" w with
    | (.error err, w) => w.log (.Print ("Error: " ++ err.text ++ "\n"))
    | (.ok privateKeyData, w) =>
      match promptPassword sys "Enter passphrase for private key: " w with
      | ((_, some err), w) => w.log (.Print ("Error: " ++ err.text ++ "\n"))
      | ((passphrase, none), w) =>
        match decryptPgpFile sys secretFile privateKeyData passphrase w with
        | ((_, some err), w) => w.log (.Print ("Error: " ++ err.text ++ "\n"))
        | ((decryptedContent, none), w) =>
          let w := (Split decryptedContent '\n').foldl envCmd.line w
          let shell := if Getenv "SHELL" w = "" then "/bin/sh" else Getenv "SHELL" w
          match RunShell sys shell w with
          | (some err, w) => w.log (.Print ("Error starting new shell: " ++ err.text ++ "\n"))
          | (none, w) => w

/-! ## The reference reading of the plaintext convention

The reading that the specification gives of a decrypted content, as newline-separated
`KEY=VALUE` pairs; written from the words of the specification, to be compared with the loop
of `envCmd`. -/

namespace Reference

/-- The content split on the newline character. -/
def lines (content : String) : List (List Char) :=
  content.data.splitOn '\n'

/-- A blank line: nothing but white space. -/
def blank (line : List Char) : Bool :=
  line.all isSpace

/-- A line starting with `#`. -/
def comment (line : List Char) : Bool :=
  line.head? == some '#'

/-- The text with the white space at both ends removed. -/
def trimmed (s : List Char) : String :=
  ⟨(s.dropWhile isSpace).rdropWhile isSpace⟩

/-- The assignment a line makes: none for a blank line, a line starting with `#` and a line
without `=`; otherwise the trimmed text before the first `=` is assigned the trimmed text
after it. -/
def assignment (line : List Char) : Option (String × String) :=
  if blank line || comment line then none
  else if line.contains '=' then
    some (trimmed (line.takeWhile (fun c => c != '=')),
      trimmed ((line.dropWhile (fun c => c != '=')).drop 1))
  else none

/-- The assignments of a content, in the order of its lines. -/
def assignments (content : String) : List (String × String) :=
  (lines content).filterMap assignment

/-- The value a content gives to a key: that of the last line assigning it. -/
def value (content key : String) : Option String :=
  (assignments content).reverse.lookup key

end Reference

/-- The calls of `os.Setenv` among the events `tr` (most recent first), in the order in which
they were made. -/
def setenvCalls (tr : List Event) : List (String × String) :=
  tr.reverse.filterMap (fun e => match e with
    | .Setenv key value => some (key, value)
    | _ => none)

/-! ## Events since an earlier state -/

/-- The events of `w'` performed since the earlier state `w`, most recent first. -/
def World.since (w' w : World) : List Event :=
  w'.trace.take (w'.trace.length - w.trace.length)

/-- The relation `Frame P T w w'`: from `w` to `w'` the trace has grown by events that satisfy `P`, no
file outside `T` has changed, and the environment is the same. -/
structure Frame (P : Event → Prop) (T : String → Prop) (w w' : World) : Prop where
  trace : ∃ d, w'.trace = d ++ w.trace ∧ ∀ e ∈ d, P e
  fs : ∀ p, ¬ T p → w'.fs p = w.fs p
  environ : w'.environ = w.environ

/-- The events of `decryptPgpFile.withKey`. -/
def decKeyEvent (e : Event) : Prop :=
  e = .Lib .NewKeyRing ∨ e = .Lib .Decrypt ∨ e = .Lib .GetBinary

/-- The events of `encryptPgpFile.withKey` writing to `F`. -/
def encKeyEvent (F : String) (e : Event) : Prop :=
  e = .Lib .NewKeyRing ∨ e = .Lib .NewPlainMessage ∨ e = .Lib .Encrypt ∨ e = .Lib .GetArmored ∨
    ∃ data, e = .WriteFile F data 0o644

/-- The events of `decryptPgpFile` reading `F`. -/
def decEvent (F : String) (e : Event) : Prop :=
  e = .Call .decryptPgpFile ∨ e = .ReadFile F ∨ ∃ fn, e = .Lib fn

/-- The events of `encryptPgpFile` writing to `F`. -/
def encEvent (F : String) (e : Event) : Prop :=
  e = .Call .encryptPgpFile ∨ (∃ fn, e = .Lib fn) ∨ ∃ data, e = .WriteFile F data 0o644

/-- The events of `encryptPgpFile` before its final write. -/
def sealEvent (e : Event) : Prop :=
  e = .Call .encryptPgpFile ∨ ∃ fn, e = .Lib fn

/-- The event is not an attempt to write a file with `ioutil.WriteFile`. -/
def notWriteFile (e : Event) : Prop :=
  ∀ path data perm, e ≠ .WriteFile path data perm

instance : DecidablePred notWriteFile := fun e =>
  match e with
  | .WriteFile path data perm => isFalse (fun h => h path data perm rfl)
  | .Print _ => isTrue (fun _ _ _ h => Event.noConfusion h)
  | .Call _ => isTrue (fun _ _ _ h => Event.noConfusion h)
  | .Lib _ => isTrue (fun _ _ _ h => Event.noConfusion h)
  | .ReadFile _ => isTrue (fun _ _ _ h => Event.noConfusion h)
  | .Stat _ => isTrue (fun _ _ _ h => Event.noConfusion h)
  | .TempFile _ => isTrue (fun _ _ _ h => Event.noConfusion h)
  | .Write _ _ => isTrue (fun _ _ _ h => Event.noConfusion h)
  | .Close _ => isTrue (fun _ _ _ h => Event.noConfusion h)
  | .Remove _ _ => isTrue (fun _ _ _ h => Event.noConfusion h)
  | .Run _ _ => isTrue (fun _ _ _ h => Event.noConfusion h)
  | .Setenv _ _ => isTrue (fun _ _ _ h => Event.noConfusion h)

/-- The events of `editCmd` on the secret file `F` before it encrypts or decrypts. -/
def loadEvent (F : String) (e : Event) : Prop :=
  e = .ReadFile "private.key" ∨ e = .Call .promptPassword ∨ e = .Stat F ∨ ∃ s, e = .Print s

/-- The events of `editCmd` on the scratch file `name`, apart from its creation and removal,
and the messages it prints. -/
def sessEvent (name : String) (e : Event) : Prop :=
  (∃ data, e = .Write name data) ∨ e = .Close name ∨ (∃ editor, e = .Run editor [name]) ∨
    e = .ReadFile name ∨ ∃ s, e = .Print s

/-- Assumption on the library: `Decrypt` inverts `Encrypt` on the same key ring. -/
def DecryptInvertsEncrypt (lib : CryptoLib) : Prop :=
  ∀ (keyRing : lib.KeyRing) (data : String) (t : Nat) (m : lib.PGPMessage),
    lib.Encrypt keyRing (lib.NewPlainMessage data) none t = .ok m →
    ∃ d, lib.Decrypt keyRing m none 0 = .ok d ∧ lib.GetBinary d = data

/-- Assumption on the library: de-armoring an armored message gives the message back. -/
def ArmorLossless (lib : CryptoLib) : Prop :=
  ∀ (m : lib.PGPMessage) (a : String),
    lib.GetArmored m = .ok a → lib.NewPGPMessageFromArmored a = .ok m

/-! ## A small concrete system

An executable instance of `Sys`, on which the definitions above can be run.  Its library
follows the documented behaviour of `gopenpgp/v2/crypto` where the program depends on it:
`GenerateKey name email keyType bits` generates a Curve25519 key when `keyType` is `"x25519"`
and an RSA key of `bits` bits otherwise, and fails when both `name` and `email` are empty. -/

/-- A key of the concrete library: its algorithm, its size and, when it is locked, the
passphrase it is locked with. -/
structure ToyKey where
  algo : String
  bits : Nat
  lock : Option String
deriving DecidableEq, Repr

/-- Armored form of a `ToyKey`: `L` (locked) or `U`, then `x` (Curve25519) or `r` (RSA), then
the passphrase of the lock. -/
def ToyKey.armor (k : ToyKey) : String :=
  ⟨(if k.lock.isSome then 'L' else 'U') :: (if k.algo = "x25519" then 'x' else 'r') ::
    (match k.lock with | some p => p.data | none => [])⟩

/-- Inverse of `ToyKey.armor`. -/
def ToyKey.unarmor (s : String) : Except Error ToyKey :=
  match s.data with
  | tag :: a :: rest =>
    if tag = 'L' then
      .ok ⟨if a = 'x' then "x25519" else "rsa", if a = 'x' then 0 else 2048, some ⟨rest⟩⟩
    else if tag = 'U' then
      .ok ⟨if a = 'x' then "x25519" else "rsa", if a = 'x' then 0 else 2048, none⟩
    else .error (.Other "gopenpgp: error in unarmoring key")
  | _ => .error (.Other "gopenpgp: error in unarmoring key")

/-- The concrete library. -/
def toyLib : CryptoLib where
  Key := ToyKey
  KeyRing := ToyKey
  PGPMessage := String
  PlainMessage := String
  GenerateKey name email keyType bits _ :=
    if name = "" ∧ email = "" then .error (.Other "gopenpgp: neither name nor email set.")
    else if keyType = "x25519" then .ok ⟨"x25519", 0, none⟩
    else .ok ⟨"rsa", bits, none⟩
  Lock k passphrase _ :=
    if k.lock.isSome then .error (.Other "gopenpgp: key is already locked")
    else .ok { k with lock := some passphrase }
  Armor k := .ok k.armor
  NewPGPMessageFromArmored s :=
    match s.data with
    | 'A' :: rest => .ok ⟨rest⟩
    | _ => .error (.Other "gopenpgp: error in unarmoring message")
  NewKeyFromArmored := ToyKey.unarmor
  IsLocked k := .ok k.lock.isSome
  Unlock k passphrase :=
    if k.lock = some passphrase then .ok { k with lock := none }
    else .error (.Other "gopenpgp: error in unlocking key")
  NewKeyRing k :=
    if k.lock.isSome then .error (.Other "gopenpgp: cannot add a locked key to a keyring")
    else .ok k
  NewPlainMessage data := data
  GetBinary m := m
  Encrypt _ m _ _ := .ok ⟨'E' :: m.data⟩
  Decrypt _ m _ _ :=
    match m.data with
    | 'E' :: rest => .ok ⟨rest⟩
    | _ => .error (.Other "gopenpgp: error in reading message")
  GetArmored m := .ok ⟨'A' :: m.data⟩

/-- The concrete system: the user types `stdin`, the editor leaves `edited` in the scratch
file and exits with `editorErr`, and the operating system refuses nothing. -/
def toySys (stdin : String) (edited : Option String) (editorErr : Option Error) : Sys where
  lib := toyLib
  ReadString _ := .ok stdin
  WriteFileErr _ _ _ := none
  TempFileName _ := .ok "/tmp/secret1"
  WriteErr _ _ _ := none
  CloseErr _ _ := none
  RemoveErr _ _ := none
  Editor _ _ _ _ := (editorErr, edited)
  Shell _ _ _ := none

/-- The concrete system with a library whose `Encrypt` fails. -/
def failSys (stdin : String) (edited : Option String) : Sys :=
  { toySys stdin edited none with
    lib := { toyLib with
      Encrypt := fun _ _ _ _ => .error (.Other "gopenpgp: unable to encrypt message") } }

/-- The concrete system on an operating system that refuses every removal. -/
def stuckSys (stdin : String) (edited : Option String) (editorErr : Option Error) : Sys :=
  { toySys stdin edited editorErr with
    RemoveErr := fun _ name => some (.Other ("remove " ++ name ++ ": permission denied")) }

/-- The concrete system with a library whose `Decrypt` does not invert its `Encrypt`, and an
editor that exits with an error. -/
def deafSys (stdin : String) (edited : Option String) : Sys :=
  { toySys stdin edited (some (.Other "exit status 1")) with
    lib := { toyLib with
      Decrypt := fun _ _ _ _ => .error (.Other "gopenpgp: error in reading message") } }

/-- The concrete system with a library that reports a key that does not parse and a passphrase
that does not unlock with one and the same error. -/
def mumSys : Sys :=
  { toySys "" none none with
    lib := { toyLib with
      NewKeyFromArmored := fun s =>
        match ToyKey.unarmor s with
        | .ok k => .ok k
        | .error _ => .error (.Other "gopenpgp: error")
      Unlock := fun k passphrase =>
        if k.lock = some passphrase then .ok { k with lock := none }
        else .error (.Other "gopenpgp: error") } }

/-- A world with the given files, an empty environment and nothing done yet. -/
def toyWorld (files : List (String × String)) : World :=
  ⟨fun path => files.lookup path, [], 0, []⟩

/-! ## Basic facts about worlds -/

@[simp] theorem log_fs (w : World) (e : Event) : (w.log e).fs = w.fs := rfl
@[simp] theorem log_environ (w : World) (e : Event) : (w.log e).environ = w.environ := rfl
@[simp] theorem log_clock (w : World) (e : Event) : (w.log e).clock = w.clock := rfl
@[simp] theorem log_trace (w : World) (e : Event) : (w.log e).trace = e :: w.trace := rfl
@[simp] theorem tick_fs (w : World) : w.tick.fs = w.fs := rfl
@[simp] theorem tick_environ (w : World) : w.tick.environ = w.environ := rfl
@[simp] theorem tick_clock (w : World) : w.tick.clock = w.clock + 1 := rfl
@[simp] theorem tick_trace (w : World) : w.tick.trace = w.trace := rfl
@[simp] theorem setFS_fs (w : World) (fs : FS) : (w.setFS fs).fs = fs := rfl
@[simp] theorem setFS_environ (w : World) (fs : FS) : (w.setFS fs).environ = w.environ := rfl
@[simp] theorem setFS_clock (w : World) (fs : FS) : (w.setFS fs).clock = w.clock := rfl
@[simp] theorem setFS_trace (w : World) (fs : FS) : (w.setFS fs).trace = w.trace := rfl

theorem since_of_append {w w' : World} {d : List Event} (h : w'.trace = d ++ w.trace) :
    w'.since w = d := by
  simp [World.since, h]

theorem Frame.refl (P : Event → Prop) (T : String → Prop) (w : World) : Frame P T w w :=
  ⟨⟨[], by simp, by simp⟩, fun _ _ => rfl, rfl⟩

theorem Frame.step {P P2 : Event → Prop} {T T2 : String → Prop} {w w1 w2 : World}
    (h1 : Frame P T w w1) (h2 : Frame P2 T2 w1 w2) (hP : ∀ e, P2 e → P e)
    (hT : ∀ p, T2 p → T p) : Frame P T w w2 := by
  obtain ⟨⟨d1, hd1, hP1⟩, hf1, he1⟩ := h1
  obtain ⟨⟨d2, hd2, hP2⟩, hf2, he2⟩ := h2
  refine ⟨⟨d2 ++ d1, by simp [hd2, hd1], ?_⟩, ?_, by rw [he2, he1]⟩
  · intro e he
    rcases List.mem_append.mp he with h | h
    · exact hP e (hP2 e h)
    · exact hP1 e h
  · intro p hp
    rw [hf2 p (fun h => hp (hT p h)), hf1 p hp]

theorem Frame.mono {P P2 : Event → Prop} {T T2 : String → Prop} {w w' : World}
    (h : Frame P2 T2 w w') (hP : ∀ e, P2 e → P e) (hT : ∀ p, T2 p → T p) : Frame P T w w' :=
  Frame.step (Frame.refl P T w) h hP hT

theorem Frame.log {P : Event → Prop} {T : String → Prop} {w w' : World} {e : Event}
    (h : Frame P T w w') (hP : P e) : Frame P T w (w'.log e) := by
  obtain ⟨⟨d, hd, hPd⟩, hf, he⟩ := h
  refine ⟨⟨e :: d, by simp [hd], ?_⟩, by simpa using hf, by simpa using he⟩
  intro x hx
  rcases List.mem_cons.mp hx with h | h
  · exact h ▸ hP
  · exact hPd x h

theorem Frame.tick {P : Event → Prop} {T : String → Prop} {w w' : World}
    (h : Frame P T w w') : Frame P T w w'.tick :=
  ⟨h.trace, h.fs, h.environ⟩

theorem Frame.update {P : Event → Prop} {T : String → Prop} {w w' : World} {path : String}
    (h : Frame P T w w') (hT : T path) (v : Option String) :
    Frame P T w (w'.setFS (Function.update w'.fs path v)) := by
  refine ⟨h.trace, ?_, h.environ⟩
  intro p hp
  have hne : p ≠ path := fun heq => hp (heq ▸ hT)
  simp [Function.update_noteq hne, h.fs p hp]

theorem Frame.since {P : Event → Prop} {T : String → Prop} {w w' : World}
    (h : Frame P T w w') : ∀ e ∈ w'.since w, P e := by
  obtain ⟨d, hd, hP⟩ := h.trace
  rw [since_of_append hd]
  exact hP

/-! ## The operations of the operating system -/

theorem ReadFile_frame (path : String) (w : World) :
    Frame (fun e => e = .ReadFile path) (fun _ => False) w (ReadFile path w).2 := by
  unfold ReadFile
  simp only []
  split
  all_goals
    repeat (first | exact Frame.refl _ _ _ | apply Frame.tick | apply Frame.update | apply Frame.log)
  all_goals simp

theorem WriteFile_frame (sys : Sys) (path data : String) (perm : Nat) (w : World) :
    Frame (fun e => e = .WriteFile path data perm) (fun p => p = path) w
      (WriteFile sys path data perm w).2 := by
  unfold WriteFile
  simp only []
  split
  all_goals
    repeat (first | exact Frame.refl _ _ _ | apply Frame.tick | apply Frame.update | apply Frame.log)
  all_goals simp

theorem WriteFile_ok {sys : Sys} {path data : String} {perm : Nat} {w w' : World}
    (h : WriteFile sys path data perm w = (none, w')) : w'.fs path = some data := by
  unfold WriteFile at h
  simp only [] at h
  split at h
  · simp at h
  · simp only [Prod.mk.injEq, true_and] at h
    subst h
    simp

theorem TempFile_error {sys : Sys} {w w' : World} {err : Error}
    (h : TempFile sys w = (.error err, w')) : Frame (fun _ => False) (fun _ => False) w w' := by
  unfold TempFile at h
  split at h
  · simp only [Prod.mk.injEq] at h
    rw [← h.2]
    exact Frame.tick (Frame.refl _ _ _)
  · split at h
    · simp only [Prod.mk.injEq] at h
      rw [← h.2]
      exact Frame.tick (Frame.refl _ _ _)
    · simp at h

theorem TempFile_ok {sys : Sys} {w w' : World} {name : String}
    (h : TempFile sys w = (.ok name, w')) :
    w.fs name = none ∧ w'.fs name = some "" ∧ w'.trace = .TempFile name :: w.trace ∧
      Frame (fun e => e = .TempFile name) (fun p => p = name) w w' := by
  unfold TempFile at h
  split at h
  · simp at h
  · split at h
    · simp at h
    · rename_i nm _ _ hfs
      simp only [Prod.mk.injEq, Except.ok.injEq] at h
      obtain ⟨rfl, rfl⟩ := h
      refine ⟨hfs, by simp, by simp, ?_⟩
      apply Frame.tick
      apply Frame.log
      · apply Frame.update (Frame.refl _ _ _)
        rfl
      · rfl

theorem Write_frame (sys : Sys) (name data : String) (w : World) :
    Frame (fun e => e = .Write name data) (fun p => p = name) w (Write sys name data w).2 := by
  unfold Write
  simp only []
  split
  all_goals
    repeat (first | exact Frame.refl _ _ _ | apply Frame.tick | apply Frame.update | apply Frame.log)
  all_goals simp

theorem Close_frame (sys : Sys) (name : String) (w : World) :
    Frame (fun e => e = .Close name) (fun _ => False) w (Close sys name w).2 := by
  unfold Close
  simp only []
  repeat (first | exact Frame.refl _ _ _ | apply Frame.tick | apply Frame.update | apply Frame.log)
  all_goals simp

theorem Remove_frame (sys : Sys) (name : String) (w : World) :
    Frame (fun e => ∃ err, e = .Remove name err) (fun p => p = name) w
      (Remove sys name w).2 := by
  unfold Remove
  split
  · exact Frame.tick (Frame.log (Frame.refl _ _ _) ⟨_, rfl⟩)
  · split
    · exact Frame.tick (Frame.log (Frame.refl _ _ _) ⟨_, rfl⟩)
    · exact Frame.tick (Frame.log (Frame.update (Frame.refl _ (fun p => p = name) w) rfl none)
        ⟨_, rfl⟩)

/-- After `os.Remove` the call is the last event, and the file is absent unless the operating
system has refused the removal. -/
theorem Remove_cases (sys : Sys) (name : String) (w : World) :
    ∃ err, (Remove sys name w).2.trace = .Remove name err :: w.trace ∧
      (Remove sys name w).1 = err ∧
      ((Remove sys name w).2.fs name = none ∨
        ∃ e, sys.RemoveErr w.clock name = some e ∧ err = some e ∧
          (Remove sys name w).2.fs name = w.fs name) := by
  unfold Remove
  split
  · rename_i h
    exact ⟨_, rfl, rfl, Or.inl (by simpa using h)⟩
  · split
    · rename_i e he
      exact ⟨_, rfl, rfl, Or.inr ⟨e, he, rfl, rfl⟩⟩
    · exact ⟨_, rfl, rfl, Or.inl (by simp)⟩

theorem RunEditor_frame (sys : Sys) (name path : String) (w : World) :
    Frame (fun e => e = .Run name [path]) (fun p => p = path) w (RunEditor sys name path w).2 := by
  unfold RunEditor
  simp only []
  repeat (first | exact Frame.refl _ _ _ | apply Frame.tick | apply Frame.update | apply Frame.log)
  all_goals simp

theorem promptPassword_frame (sys : Sys) (prompt : String) (w : World) :
    Frame (fun e => e = .Call .promptPassword ∨ e = .Print prompt) (fun _ => False) w
      (promptPassword sys prompt w).2 := by
  unfold promptPassword
  simp only []
  split
  all_goals
    repeat (first | exact Frame.refl _ _ _ | apply Frame.tick | apply Frame.update | apply Frame.log)
  all_goals simp

/-! ## `decryptPgpFile` and `encryptPgpFile` -/

theorem decKeyEvent_dec (F : String) (e : Event) (h : decKeyEvent e) : decEvent F e := by
  rcases h with rfl | rfl | rfl <;> exact Or.inr (Or.inr ⟨_, rfl⟩)

theorem encKeyEvent_enc (F : String) (e : Event) (h : encKeyEvent F e) : encEvent F e := by
  rcases h with rfl | rfl | rfl | rfl | ⟨d, rfl⟩
  · exact Or.inr (Or.inl ⟨_, rfl⟩)
  · exact Or.inr (Or.inl ⟨_, rfl⟩)
  · exact Or.inr (Or.inl ⟨_, rfl⟩)
  · exact Or.inr (Or.inl ⟨_, rfl⟩)
  · exact Or.inr (Or.inr ⟨d, rfl⟩)

theorem decryptPgpFile_withKey_frame (sys : Sys) (message : sys.lib.PGPMessage)
    (key : sys.lib.Key) (w : World) :
    Frame decKeyEvent (fun _ => False) w (decryptPgpFile.withKey sys message key w).2 := by
  unfold decryptPgpFile.withKey
  simp only []
  repeat' split
  all_goals
    repeat (first | exact Frame.refl _ _ _ | apply Frame.tick | apply Frame.update | apply Frame.log)
  all_goals simp [decKeyEvent]

theorem decryptPgpFile_frame (sys : Sys) (F K Q : String) (w : World) :
    Frame (decEvent F) (fun _ => False) w (decryptPgpFile sys F K Q w).2 := by
  unfold decryptPgpFile
  simp only []
  have hR := ReadFile_frame F (w.log (.Call .decryptPgpFile))
  generalize ReadFile F (w.log (.Call .decryptPgpFile)) = r at hR
  obtain ⟨res, w1⟩ := r
  have h0 : Frame (decEvent F) (fun _ => False) w w1 :=
    Frame.step (Frame.log (Frame.refl _ _ _) (Or.inl rfl)) hR (fun e he => Or.inr (Or.inl he))
      (fun _ h => h)
  have hK : ∀ (m : sys.lib.PGPMessage) (k : sys.lib.Key) (w2 : World),
      Frame (decEvent F) (fun _ => False) w w2 →
      Frame (decEvent F) (fun _ => False) w (decryptPgpFile.withKey sys m k w2).2 :=
    fun m k w2 h =>
      Frame.step h (decryptPgpFile_withKey_frame sys m k w2) (decKeyEvent_dec F) (fun _ h => h)
  cases res <;> simp only []
  · exact h0
  · repeat' split
    all_goals
      repeat (first | exact h0 | apply hK | apply Frame.tick | apply Frame.update | apply Frame.log)
    all_goals simp [decEvent]

theorem encryptPgpFile_withKey_frame (sys : Sys) (P F : String) (key : sys.lib.Key)
    (w : World) :
    Frame (encKeyEvent F) (fun p => p = F) w (encryptPgpFile.withKey sys P F key w).2 := by
  unfold encryptPgpFile.withKey
  simp only []
  have hW : ∀ (a : String) (w2 : World), Frame (encKeyEvent F) (fun p => p = F) w w2 →
      Frame (encKeyEvent F) (fun p => p = F) w (WriteFile sys F a 0o644 w2).2 := fun a w2 h =>
    Frame.step h (WriteFile_frame sys F a 0o644 w2)
      (fun e he => Or.inr (Or.inr (Or.inr (Or.inr ⟨a, he⟩)))) (fun _ h => h)
  repeat' split
  all_goals
    repeat (first | exact Frame.refl _ _ _ | apply hW | apply Frame.tick
                  | apply Frame.update | apply Frame.log)
  all_goals simp [encKeyEvent]

theorem encryptPgpFile_frame (sys : Sys) (P K Q F : String) (w : World) :
    Frame (encEvent F) (fun p => p = F) w (encryptPgpFile sys P K Q F w).2 := by
  unfold encryptPgpFile
  simp only []
  have hK : ∀ (k : sys.lib.Key) (w2 : World), Frame (encEvent F) (fun p => p = F) w w2 →
      Frame (encEvent F) (fun p => p = F) w (encryptPgpFile.withKey sys P F k w2).2 :=
    fun k w2 h =>
      Frame.step h (encryptPgpFile_withKey_frame sys P F k w2) (encKeyEvent_enc F) (fun _ h => h)
  repeat' split
  all_goals
    repeat (first | exact Frame.refl _ _ _ | apply hK | apply Frame.tick
                  | apply Frame.update | apply Frame.log)
  all_goals simp [encEvent]

/-- Either `encryptPgpFile.withKey` fails before its write, changing no file, or every step
before the write succeeds and its outcome is that of the write. -/
theorem encryptPgpFile_withKey_cases (sys : Sys) (P F : String) (key : sys.lib.Key)
    (w : World) :
    (∃ err, (encryptPgpFile.withKey sys P F key w).1 = some err ∧
      (encryptPgpFile.withKey sys P F key w).2.fs = w.fs ∧
      Frame (fun e => ∃ fn, e = .Lib fn) (fun _ => False) w
        (encryptPgpFile.withKey sys P F key w).2) ∨
    (∃ kr m a w1, sys.lib.NewKeyRing key = .ok kr ∧
      sys.lib.Encrypt kr (sys.lib.NewPlainMessage P) none w.clock = .ok m ∧
      sys.lib.GetArmored m = .ok a ∧
      Frame (fun e => ∃ fn, e = .Lib fn) (fun _ => False) w w1 ∧ w1.fs = w.fs ∧
      encryptPgpFile.withKey sys P F key w = WriteFile sys F a 0o644 w1) := by
  unfold encryptPgpFile.withKey
  simp only []
  split
  · left
    refine ⟨_, rfl, rfl, ?_⟩
    repeat (first | exact Frame.refl _ _ _ | apply Frame.tick | apply Frame.log)
    all_goals simp
  · rename_i kr hkr
    split
    · left
      refine ⟨_, rfl, rfl, ?_⟩
      repeat (first | exact Frame.refl _ _ _ | apply Frame.tick | apply Frame.log)
      all_goals simp
    · rename_i m hm
      split
      · left
        refine ⟨_, rfl, rfl, ?_⟩
        repeat (first | exact Frame.refl _ _ _ | apply Frame.tick | apply Frame.log)
        all_goals simp
      · rename_i a ha
        right
        refine ⟨kr, m, a, _, hkr, by simpa using hm, ha, ?_, ?_, rfl⟩
        · repeat (first | exact Frame.refl _ _ _ | apply Frame.tick | apply Frame.log)
          all_goals simp
        · simp

/-- Either `encryptPgpFile` fails before its write, changing no file, or every step before
the write succeeds and its outcome is that of the write. -/
theorem encryptPgpFile_cases (sys : Sys) (P K Q F : String) (w : World) :
    (∃ err, (encryptPgpFile sys P K Q F w).1 = some err ∧
      (encryptPgpFile sys P K Q F w).2.fs = w.fs ∧
      Frame sealEvent (fun _ => False) w (encryptPgpFile sys P K Q F w).2) ∨
    (∃ k b u kr m a w1, sys.lib.NewKeyFromArmored K = .ok k ∧ sys.lib.IsLocked k = .ok b ∧
      (if b then sys.lib.Unlock k Q else .ok k) = .ok u ∧ sys.lib.NewKeyRing u = .ok kr ∧
      sys.lib.Encrypt kr (sys.lib.NewPlainMessage P) none w.clock = .ok m ∧
      sys.lib.GetArmored m = .ok a ∧ Frame sealEvent (fun _ => False) w w1 ∧ w1.fs = w.fs ∧
      encryptPgpFile sys P K Q F w = WriteFile sys F a 0o644 w1) := by
  have hK : ∀ (u : sys.lib.Key) (w0 : World), Frame sealEvent (fun _ => False) w w0 →
      w0.fs = w.fs → w0.clock = w.clock →
      (∃ err, (encryptPgpFile.withKey sys P F u w0).1 = some err ∧
        (encryptPgpFile.withKey sys P F u w0).2.fs = w.fs ∧
        Frame sealEvent (fun _ => False) w (encryptPgpFile.withKey sys P F u w0).2) ∨
      (∃ kr m a w1, sys.lib.NewKeyRing u = .ok kr ∧
        sys.lib.Encrypt kr (sys.lib.NewPlainMessage P) none w.clock = .ok m ∧
        sys.lib.GetArmored m = .ok a ∧ Frame sealEvent (fun _ => False) w w1 ∧ w1.fs = w.fs ∧
        encryptPgpFile.withKey sys P F u w0 = WriteFile sys F a 0o644 w1) := by
    intro u w0 h0 hfs hclk
    rcases encryptPgpFile_withKey_cases sys P F u w0 with ⟨err, h1, h2, h3⟩ | ⟨kr, m, a, w1, h1, h2, h3, h4, h5, h6⟩
    · exact Or.inl ⟨err, h1, h2.trans hfs,
        Frame.step h0 h3 (fun e he => Or.inr he) (fun _ h => h)⟩
    · exact Or.inr ⟨kr, m, a, w1, h1, hclk ▸ h2, h3,
        Frame.step h0 h4 (fun e he => Or.inr he) (fun _ h => h), h5.trans hfs, h6⟩
  unfold encryptPgpFile
  simp only []
  split
  · left
    refine ⟨_, rfl, rfl, ?_⟩
    repeat (first | exact Frame.refl _ _ _ | apply Frame.tick | apply Frame.log)
    all_goals simp [sealEvent]
  · rename_i k hk
    split
    · left
      refine ⟨_, rfl, rfl, ?_⟩
      repeat (first | exact Frame.refl _ _ _ | apply Frame.tick | apply Frame.log)
      all_goals simp [sealEvent]
    · rename_i b hb
      split
      · rename_i hbt
        subst hbt
        split
        · left
          refine ⟨_, rfl, rfl, ?_⟩
          repeat (first | exact Frame.refl _ _ _ | apply Frame.tick | apply Frame.log)
          all_goals simp [sealEvent]
        · rename_i u hu
          have h0 : Frame sealEvent (fun _ => False) w
              ((((w.log (.Call .encryptPgpFile)).log (.Lib .NewKeyFromArmored)).log
                (.Lib .IsLocked)).log (.Lib .Unlock)) := by
            repeat (first | exact Frame.refl _ _ _ | apply Frame.tick | apply Frame.log)
            all_goals simp [sealEvent]
          rcases hK u _ h0 rfl rfl with ⟨err, h1, h2, h3⟩ | ⟨kr, m, a, w1, h1, h2, h3, h4, h5, h6⟩
          · exact Or.inl ⟨err, h1, h2, h3⟩
          · exact Or.inr ⟨k, true, u, kr, m, a, w1, hk, hb, by simpa using hu, h1, h2, h3, h4,
              h5, h6⟩
      · rename_i hbf
        have hbf : b = false := by simpa using hbf
        subst hbf
        have h0 : Frame sealEvent (fun _ => False) w
            (((w.log (.Call .encryptPgpFile)).log (.Lib .NewKeyFromArmored)).log
              (.Lib .IsLocked)) := by
          repeat (first | exact Frame.refl _ _ _ | apply Frame.tick | apply Frame.log)
          all_goals simp [sealEvent]
        rcases hK k _ h0 rfl rfl with ⟨err, h1, h2, h3⟩ | ⟨kr, m, a, w1, h1, h2, h3, h4, h5, h6⟩
        · exact Or.inl ⟨err, h1, h2, h3⟩
        · exact Or.inr ⟨k, false, k, kr, m, a, w1, hk, hb, by simp, h1, h2, h3, h4, h5, h6⟩

/-- The result of `decryptPgpFile` when every step succeeds. -/
theorem decryptPgpFile_ok (sys : Sys) (F K Q : String) (w : World) (a : String)
    (m : sys.lib.PGPMessage) (k u : sys.lib.Key) (b : Bool) (kr : sys.lib.KeyRing)
    (d : sys.lib.PlainMessage) (hfs : w.fs F = some a)
    (hm : sys.lib.NewPGPMessageFromArmored a = .ok m)
    (hk : sys.lib.NewKeyFromArmored K = .ok k) (hb : sys.lib.IsLocked k = .ok b)
    (hu : (if b then sys.lib.Unlock k Q else .ok k) = .ok u)
    (hkr : sys.lib.NewKeyRing u = .ok kr) (hd : sys.lib.Decrypt kr m none 0 = .ok d) :
    (decryptPgpFile sys F K Q w).1 = (sys.lib.GetBinary d, none) := by
  unfold decryptPgpFile ReadFile decryptPgpFile.withKey
  cases b
  · simp only [Bool.false_eq_true, if_false, Except.ok.injEq] at hu
    subst hu
    simp [hfs, hm, hk, hb, hkr, hd]
  · simp only [if_true] at hu
    simp [hfs, hm, hk, hb, hu, hkr, hd]

/-- The first component of `decryptPgpFile` depends on the world through the file only. -/
theorem decryptPgpFile_fst_congr (sys : Sys) (F K Q : String) (w w' : World)
    (h : w'.fs F = w.fs F) : (decryptPgpFile sys F K Q w').1 = (decryptPgpFile sys F K Q w).1 := by
  unfold decryptPgpFile ReadFile decryptPgpFile.withKey
  simp only [log_fs, h]
  cases w.fs F
  · rfl
  · simp only []
    repeat' split
    all_goals simp_all

/-! ## The concrete library meets the assumptions -/

theorem toyLib_inverts : DecryptInvertsEncrypt toyLib := by
  intro keyRing data t m h
  simp only [toyLib, Except.ok.injEq] at h
  subst h
  exact ⟨data, rfl, rfl⟩

theorem toyLib_lossless : ArmorLossless toyLib := by
  intro m a h
  simp only [toyLib, Except.ok.injEq] at h
  subst h
  rfl

/-! ## Key generation -/

theorem generateKey_frame (sys : Sys) (name email passphrase : String) (w : World) :
    Frame (fun e => e = .Call .generateKey ∨ ∃ fn, e = .Lib fn) (fun _ => False) w
      (generateKey sys name email passphrase w).2 := by
  unfold generateKey
  simp only []
  repeat' split
  all_goals
    repeat (first | exact Frame.refl _ _ _ | apply Frame.tick | apply Frame.update | apply Frame.log)
  all_goals simp

/-- Either `initCmd` attempts no write and changes no file, the prompt or `generateKey` having
failed, or `generateKey` succeeds and the only write is that of its result to `private.key`. -/
theorem initCmd_cases (sys : Sys) (w : World) :
    (((promptPassword sys "Enter a passphrase for the new key: " w).1.2 ≠ none ∨
        (generateKey sys "User" "user@example.com"
          (promptPassword sys "Enter a passphrase for the new key: " w).1.1
          (promptPassword sys "Enter a passphrase for the new key: " w).2).1.2 ≠ none) ∧
      Frame notWriteFile (fun _ => False) w (initCmd sys w)) ∨
    ((promptPassword sys "Enter a passphrase for the new key: " w).1.2 = none ∧
      ∃ key, (generateKey sys "User" "user@example.com"
          (promptPassword sys "Enter a passphrase for the new key: " w).1.1
          (promptPassword sys "Enter a passphrase for the new key: " w).2).1 = (key, none) ∧
        Frame (fun e => notWriteFile e ∨ e = .WriteFile "private.key" key 0o600)
          (fun p => p = "private.key") w (initCmd sys w)) := by
  have hp := promptPassword_frame sys "Enter a passphrase for the new key: " w
  unfold initCmd
  generalize promptPassword sys "Enter a passphrase for the new key: " w = rp at hp ⊢
  obtain ⟨⟨typed, perr⟩, w1⟩ := rp
  have hp1 : Frame notWriteFile (fun _ => False) w w1 :=
    Frame.mono hp (by rintro e (rfl | rfl) <;> simp [notWriteFile]) (fun _ h => h)
  cases perr with
  | some err =>
    left
    exact ⟨Or.inl (by simp), Frame.log hp1 (by simp [notWriteFile])⟩
  | none =>
    simp only []
    have hg := generateKey_frame sys "User" "user@example.com" typed w1
    generalize generateKey sys "User" "user@example.com" typed w1 = rg at hg ⊢
    obtain ⟨⟨key, gerr⟩, w2⟩ := rg
    have hg1 : Frame notWriteFile (fun _ => False) w w2 :=
      Frame.step hp1 hg (by rintro e (rfl | ⟨fn, rfl⟩) <;> simp [notWriteFile]) (fun _ h => h)
    cases gerr with
    | some err =>
      left
      exact ⟨Or.inr (by simp), Frame.log hg1 (by simp [notWriteFile])⟩
    | none =>
      right
      refine ⟨by simp, key, rfl, ?_⟩
      simp only []
      have hw := WriteFile_frame sys "private.key" key 0o600 w2
      generalize WriteFile sys "private.key" key 0o600 w2 = rw at hw ⊢
      obtain ⟨werr, w3⟩ := rw
      have hw1 : Frame (fun e => notWriteFile e ∨ e = .WriteFile "private.key" key 0o600)
          (fun p => p = "private.key") w w3 :=
        Frame.step (Frame.mono hg1 (fun e he => Or.inl he) (fun _ h => h.elim)) hw
          (fun e he => Or.inr he) (fun _ h => h)
      cases werr with
      | some err => exact Frame.log hw1 (Or.inl (by simp [notWriteFile]))
      | none => exact Frame.log hw1 (Or.inl (by simp [notWriteFile]))

/-- C8. Key is only ever persisted locked: when `generateKey` succeeds its result is the
armor of the key returned by `Lock` with the given passphrase; when a step fails (generation,
locking, armoring) it returns the empty string with the error of that step; every write of
`initCmd` is a write to `private.key`, with mode 0600, of the result of a successful
`generateKey` run with the prompted passphrase; and when `generateKey` fails `initCmd`
attempts no write and changes no file. -/
theorem generateKey_persisted_locked (sys : Sys) (name email passphrase : String) (w : World) :
    (∀ armored, (generateKey sys name email passphrase w).1 = (armored, none) →
      ∃ key lockedKey, sys.lib.GenerateKey name email passphrase 2048 w.clock = .ok key ∧
        sys.lib.Lock key passphrase (w.clock + 1) = .ok lockedKey ∧
        sys.lib.Armor lockedKey = .ok armored) ∧
    (∀ s err, (generateKey sys name email passphrase w).1 = (s, some err) →
      s = "" ∧
      (sys.lib.GenerateKey name email passphrase 2048 w.clock = .error err ∨
        ∃ key, sys.lib.GenerateKey name email passphrase 2048 w.clock = .ok key ∧
          (sys.lib.Lock key passphrase (w.clock + 1) = .error err ∨
            ∃ lockedKey, sys.lib.Lock key passphrase (w.clock + 1) = .ok lockedKey ∧
              sys.lib.Armor lockedKey = .error err))) ∧
    (∀ path data perm, Event.WriteFile path data perm ∈ (initCmd sys w).since w →
      path = "private.key" ∧ perm = 0o600 ∧
      ∃ typed, (promptPassword sys "Enter a passphrase for the new key: " w).1 = (typed, none) ∧
        (generateKey sys "User" "user@example.com" typed
          (promptPassword sys "Enter a passphrase for the new key: " w).2).1 = (data, none)) ∧
    (∀ typed s err,
      (promptPassword sys "Enter a passphrase for the new key: " w).1 = (typed, none) →
      (generateKey sys "User" "user@example.com" typed
        (promptPassword sys "Enter a passphrase for the new key: " w).2).1 = (s, some err) →
      (initCmd sys w).fs = w.fs ∧
        ∀ path data perm, Event.WriteFile path data perm ∉ (initCmd sys w).since w) := by
  refine ⟨?_, ?_, ?_, ?_⟩
  · intro armored h
    unfold generateKey at h
    simp only [log_clock, tick_clock] at h
    repeat' split at h
    all_goals simp_all
  · intro s err h
    unfold generateKey at h
    simp only [log_clock, tick_clock] at h
    repeat' split at h
    all_goals simp_all
  · intro path data perm hmem
    rcases initCmd_cases sys w with ⟨_, hf⟩ | ⟨hp, key, hg, hf⟩
    · exact absurd rfl (hf.since _ hmem path data perm)
    · rcases hf.since _ hmem with h | h
      · exact absurd rfl (h path data perm)
      · simp only [Event.WriteFile.injEq] at h
        obtain ⟨rfl, rfl, rfl⟩ := h
        exact ⟨rfl, rfl, _, Prod.ext rfl hp, hg⟩
  · intro typed s err hp hg
    rcases initCmd_cases sys w with ⟨_, hf⟩ | ⟨_, key, hg2, _⟩
    · refine ⟨funext fun p => hf.fs p (fun h => h), ?_⟩
      intro path data perm hmem
      exact absurd rfl (hf.since _ hmem path data perm)
    · rw [hp] at hg2
      rw [hg] at hg2
      simp at hg2

/-- C8, on the concrete system: the user types `p1`; the key written to `private.key` is the
armor of the locked key. -/
theorem generateKey_persisted_locked_witness :
    (generateKey (toySys "p1\n" none none) "User" "user@example.com" "p1" (toyWorld [])).1 =
        ("Lrp1", none) ∧
      ∃ key lockedKey, toyLib.GenerateKey "User" "user@example.com" "p1" 2048 0 = .ok key ∧
        toyLib.Lock key "p1" 1 = .ok lockedKey ∧ toyLib.Armor lockedKey = .ok "Lrp1" :=
  ⟨by decide,
    (generateKey_persisted_locked (toySys "p1\n" none none) "User" "user@example.com" "p1"
      (toyWorld [])).1 "Lrp1" (by decide)⟩

/-- C9, the code run at the failing input: on a library that chooses the key type as
`gopenpgp` documents, `generateKey` with the passphrase `x25519` produces a Curve25519 key,
and with the passphrase `p1` a 2048-bit RSA key, because `generateKey` passes its passphrase
as the `keyType` argument of `crypto.GenerateKey`. -/
theorem generateKey_key_type_follows_passphrase :
    (generateKey (toySys "" none none) "User" "user@example.com" "x25519" (toyWorld [])).1 =
        ("Lxx25519", none) ∧
      (toyLib.NewKeyFromArmored "Lxx25519").map (fun k => (k.algo, k.bits)) =
        .ok ("x25519", 0) ∧
      (generateKey (toySys "" none none) "User" "user@example.com" "p1" (toyWorld [])).1 =
        ("Lrp1", none) ∧
      (toyLib.NewKeyFromArmored "Lrp1").map (fun k => (k.algo, k.bits)) = .ok ("rsa", 2048) :=
  ⟨by decide, rfl, by decide, rfl⟩

/-! ## Round trip -/

/-- C1. Round trip: for every plaintext `P`, armored key `K` (so in particular every key
produced by `generateKey` with passphrase `Q`), passphrase `Q` and output path `F`, if
`encryptPgpFile P K Q F` succeeds then `decryptPgpFile F K Q`, run in the resulting state,
succeeds and returns exactly `P`, assuming that the library's `Decrypt` inverts `Encrypt` on the
same key ring and that de-armoring an armored message is lossless. -/
theorem decrypt_encrypt_roundtrip (sys : Sys) (P K Q F : String) (w : World)
    (hinv : DecryptInvertsEncrypt sys.lib) (harm : ArmorLossless sys.lib)
    (henc : (encryptPgpFile sys P K Q F w).1 = none) :
    (decryptPgpFile sys F K Q (encryptPgpFile sys P K Q F w).2).1 = (P, none) := by
  rcases encryptPgpFile_cases sys P K Q F w with
    ⟨err, h1, _⟩ | ⟨k, b, u, kr, m, a, w1, hk, hb, hu, hkr, hm, ha, _, _, hW⟩
  · rw [henc] at h1
    simp at h1
  · have hW2 : WriteFile sys F a 0o644 w1 = (none, (encryptPgpFile sys P K Q F w).2) := by
      rw [← hW]
      exact Prod.ext henc rfl
    have hfs := WriteFile_ok hW2
    obtain ⟨d, hd, hbin⟩ := hinv kr P _ m hm
    have hres := decryptPgpFile_ok sys F K Q _ a m k u b kr d hfs (harm m a ha) hk hb hu hkr hd
    rw [hres, hbin]

/-- C1, on the concrete system, with a key produced by `generateKey`. -/
theorem decrypt_encrypt_roundtrip_witness :
    (generateKey (toySys "" none none) "User" "user@example.com" "p1" (toyWorld [])).1 =
        ("Lrp1", none) ∧
      (encryptPgpFile (toySys "" none none) "FOO=bar\n" "Lrp1" "p1" "secrets.gpg"
        (toyWorld [])).1 = none ∧
      (decryptPgpFile (toySys "" none none) "secrets.gpg" "Lrp1" "p1"
        (encryptPgpFile (toySys "" none none) "FOO=bar\n" "Lrp1" "p1" "secrets.gpg"
          (toyWorld [])).2).1 = ("FOO=bar\n", none) :=
  ⟨by decide, by decide,
    decrypt_encrypt_roundtrip (toySys "" none none) "FOO=bar\n" "Lrp1" "p1" "secrets.gpg"
      (toyWorld []) toyLib_inverts toyLib_lossless (by decide)⟩

/-! ## Passphrases -/

/-- C7. Unlocked-key leniency: when the armored key parses and reports itself not locked,
the key is used as it is (`decryptPgpFile` and `encryptPgpFile` continue with the parsed key),
`Unlock` is never called, and for any two passphrases `Q1` and `Q2` the two functions return
the same result and leave the same state. -/
theorem unlocked_key_ignores_passphrase (sys : Sys) (P F K Q1 Q2 : String) (w : World)
    (k : sys.lib.Key) (hk : sys.lib.NewKeyFromArmored K = .ok k)
    (hb : sys.lib.IsLocked k = .ok false) :
    decryptPgpFile sys F K Q1 w = decryptPgpFile sys F K Q2 w ∧
      encryptPgpFile sys P K Q1 F w = encryptPgpFile sys P K Q2 F w ∧
      encryptPgpFile sys P K Q1 F w =
        encryptPgpFile.withKey sys P F k
          (((w.log (.Call .encryptPgpFile)).log (.Lib .NewKeyFromArmored)).log (.Lib .IsLocked)) ∧
      Event.Lib .Unlock ∉ (decryptPgpFile sys F K Q1 w).2.since w ∧
      Event.Lib .Unlock ∉ (encryptPgpFile sys P K Q1 F w).2.since w := by
  have henc : ∀ Q, encryptPgpFile sys P K Q F w =
      encryptPgpFile.withKey sys P F k
        (((w.log (.Call .encryptPgpFile)).log (.Lib .NewKeyFromArmored)).log (.Lib .IsLocked)) := by
    intro Q
    unfold encryptPgpFile
    simp [hk, hb]
  have hdec : ∀ Q, (∃ err, decryptPgpFile sys F K Q w =
        (("", some err), (w.log (.Call .decryptPgpFile)).log (.ReadFile F))) ∨
      (∃ err, decryptPgpFile sys F K Q w =
        (("", some err), ((w.log (.Call .decryptPgpFile)).log (.ReadFile F)).log
          (.Lib .NewPGPMessageFromArmored))) ∨
      (∃ m, decryptPgpFile sys F K Q w =
        decryptPgpFile.withKey sys m k
          (((((w.log (.Call .decryptPgpFile)).log (.ReadFile F)).log
            (.Lib .NewPGPMessageFromArmored)).log (.Lib .NewKeyFromArmored)).log
            (.Lib .IsLocked))) := by
    intro Q
    unfold decryptPgpFile ReadFile
    simp only [log_fs]
    cases w.fs F with
    | none => exact Or.inl ⟨_, rfl⟩
    | some a =>
      simp only []
      cases hm : sys.lib.NewPGPMessageFromArmored a with
      | error err => exact Or.inr (Or.inl ⟨_, rfl⟩)
      | ok m =>
        refine Or.inr (Or.inr ⟨m, ?_⟩)
        simp [hk, hb]
  refine ⟨?_, ?_, henc Q1, ?_, ?_⟩
  · unfold decryptPgpFile
    simp only []
    repeat' split
    all_goals simp_all
  · rw [henc Q1, henc Q2]
  · intro hmem
    rcases hdec Q1 with ⟨err, h⟩ | ⟨err, h⟩ | ⟨m, h⟩
    · rw [h] at hmem
      rw [since_of_append (d := [.ReadFile F, .Call .decryptPgpFile]) (by simp)] at hmem
      simp at hmem
    · rw [h] at hmem
      rw [since_of_append (d := [.Lib .NewPGPMessageFromArmored, .ReadFile F,
        .Call .decryptPgpFile]) (by simp)] at hmem
      simp at hmem
    · rw [h] at hmem
      have hf : Frame (fun e => e ≠ .Lib .Unlock) (fun _ => False) w
          (decryptPgpFile.withKey sys m k
            (((((w.log (.Call .decryptPgpFile)).log (.ReadFile F)).log
              (.Lib .NewPGPMessageFromArmored)).log (.Lib .NewKeyFromArmored)).log
              (.Lib .IsLocked))).2 := by
        refine Frame.step ?_ (decryptPgpFile_withKey_frame sys m k _) ?_ (fun _ h => h)
        · repeat (first | exact Frame.refl _ _ _ | apply Frame.tick | apply Frame.log)
          all_goals simp
        · rintro e (rfl | rfl | rfl) <;> simp
      exact hf.since _ hmem rfl
  · intro hmem
    rw [henc Q1] at hmem
    have hf : Frame (fun e => e ≠ .Lib .Unlock) (fun p => p = F) w
        (encryptPgpFile.withKey sys P F k
          (((w.log (.Call .encryptPgpFile)).log (.Lib .NewKeyFromArmored)).log
            (.Lib .IsLocked))).2 := by
      refine Frame.step ?_ (encryptPgpFile_withKey_frame sys P F k _) ?_ (fun _ h => h)
      · repeat (first | exact Frame.refl _ _ _ | apply Frame.tick | apply Frame.log)
        all_goals simp
      · rintro e (rfl | rfl | rfl | rfl | ⟨d, rfl⟩) <;> simp
    exact hf.since _ hmem rfl

/-- C7, on the concrete system, with the unlocked key `Ur`. -/
theorem unlocked_key_ignores_passphrase_witness :
    toyLib.NewKeyFromArmored "Ur" = .ok ⟨"rsa", 2048, none⟩ ∧
      toyLib.IsLocked ⟨"rsa", 2048, none⟩ = .ok false ∧
      decryptPgpFile (toySys "" none none) "secrets.gpg" "Ur" "p1"
          (toyWorld [("secrets.gpg", "AEFOO=bar\n")]) =
        decryptPgpFile (toySys "" none none) "secrets.gpg" "Ur" "other"
          (toyWorld [("secrets.gpg", "AEFOO=bar\n")]) :=
  ⟨rfl, rfl,
    (unlocked_key_ignores_passphrase (toySys "" none none) "" "secrets.gpg" "Ur" "p1" "other"
      (toyWorld [("secrets.gpg", "AEFOO=bar\n")]) ⟨"rsa", 2048, none⟩ rfl rfl).1⟩

/-! ## The stages of `editCmd` -/

/-- The two ways `editCmd.load` goes: the secret file does not exist and is created with
the encryption of the empty plaintext, or it exists and is decrypted. -/
theorem editCmd_load_cases (sys : Sys) (F key pass : String) (w : World) :
    (w.fs F = none ∧ ∃ w0, Frame (loadEvent F) (fun _ => False) w w0 ∧
      ((∃ err, (encryptPgpFile sys "" key pass F w0).1 = some err ∧
          editCmd.load sys F key pass w = (.error .createError,
            (encryptPgpFile sys "" key pass F w0).2.log
              (.Print ("Error creating new secret file: " ++ err.text ++ "\n")))) ∨
        ((encryptPgpFile sys "" key pass F w0).1 = none ∧
          editCmd.load sys F key pass w = (.ok "", (encryptPgpFile sys "" key pass F w0).2)))) ∨
    (∃ c w0, w.fs F = some c ∧ Frame (loadEvent F) (fun _ => False) w w0 ∧
      ((∃ err s, (decryptPgpFile sys F key pass w0).1 = (s, some err) ∧
          editCmd.load sys F key pass w = (.error .decryptError,
            (decryptPgpFile sys F key pass w0).2.log (.Print ("Error: " ++ err.text ++ "\n")))) ∨
        (∃ content, (decryptPgpFile sys F key pass w0).1 = (content, none) ∧
          editCmd.load sys F key pass w = (.ok content, (decryptPgpFile sys F key pass w0).2)))) := by
  unfold editCmd.load Stat
  simp only [log_fs]
  cases hfs : w.fs F with
  | none =>
    left
    refine ⟨rfl, (w.log (.Stat F)).log (.Print "Secret file does not exist. Creating a new one.\n"),
      ?_, ?_⟩
    · repeat (first | exact Frame.refl _ _ _ | apply Frame.tick | apply Frame.log)
      all_goals simp [loadEvent]
    · simp only [IsNotExist, if_true]
      generalize encryptPgpFile sys "" key pass F
        ((w.log (.Stat F)).log (.Print "Secret file does not exist. Creating a new one.\n")) = r
      obtain ⟨rerr, w1⟩ := r
      cases rerr with
      | some err => exact Or.inl ⟨err, rfl, rfl⟩
      | none => exact Or.inr ⟨rfl, rfl⟩
  | some c =>
    right
    refine ⟨c, w.log (.Stat F), rfl, ?_, ?_⟩
    · repeat (first | exact Frame.refl _ _ _ | apply Frame.tick | apply Frame.log)
      all_goals simp [loadEvent]
    · simp only [IsNotExist, Bool.false_eq_true, if_false]
      generalize decryptPgpFile sys F key pass (w.log (.Stat F)) = r
      obtain ⟨⟨s, rerr⟩, w1⟩ := r
      cases rerr with
      | some err => exact Or.inl ⟨err, s, rfl, rfl⟩
      | none => exact Or.inr ⟨s, rfl, rfl⟩

/-- The ways `editCmd.session` goes: it stops before re-encrypting, having touched the
scratch file only, or it reaches `encryptPgpFile`, having touched the scratch file only. -/
theorem editCmd_session_cases (sys : Sys) (F key pass content editor name : String)
    (w : World) :
    (((editCmd.session sys F key pass content editor name w).1 = .writeError ∨
        (editCmd.session sys F key pass content editor name w).1 = .closeError ∨
        (editCmd.session sys F key pass content editor name w).1 = .editorError ∨
        (editCmd.session sys F key pass content editor name w).1 = .readBackError) ∧
      Frame (sessEvent name) (fun p => p = name) w
        (editCmd.session sys F key pass content editor name w).2) ∨
    (∃ w0 updated, Frame (sessEvent name) (fun p => p = name) w w0 ∧
      ((∃ err, (encryptPgpFile sys updated key pass F w0).1 = some err ∧
          editCmd.session sys F key pass content editor name w = (.encryptError,
            (encryptPgpFile sys updated key pass F w0).2.log
              (.Print ("Error: " ++ err.text ++ "\n")))) ∨
        ((encryptPgpFile sys updated key pass F w0).1 = none ∧
          editCmd.session sys F key pass content editor name w = (.updated,
            (encryptPgpFile sys updated key pass F w0).2.log
              (.Print "Secret file updated.\n"))))) := by
  unfold editCmd.session
  have h1 := Write_frame sys name content w
  generalize Write sys name content w = r1 at h1 ⊢
  obtain ⟨e1, w1⟩ := r1
  have f1 : Frame (sessEvent name) (fun p => p = name) w w1 :=
    Frame.mono h1 (fun e he => Or.inl ⟨_, he⟩) (fun _ h => h)
  cases e1 with
  | some err => exact Or.inl ⟨Or.inl rfl, Frame.log f1 (by simp [sessEvent])⟩
  | none =>
    simp only []
    have h2 := Close_frame sys name w1
    generalize Close sys name w1 = r2 at h2 ⊢
    obtain ⟨e2, w2⟩ := r2
    have f2 : Frame (sessEvent name) (fun p => p = name) w w2 :=
      Frame.step f1 h2 (fun e he => Or.inr (Or.inl he)) (fun _ h => h.elim)
    cases e2 with
    | some err => exact Or.inl ⟨Or.inr (Or.inl rfl), Frame.log f2 (by simp [sessEvent])⟩
    | none =>
      simp only []
      have h3 := RunEditor_frame sys editor name w2
      generalize RunEditor sys editor name w2 = r3 at h3 ⊢
      obtain ⟨e3, w3⟩ := r3
      have f3 : Frame (sessEvent name) (fun p => p = name) w w3 :=
        Frame.step f2 h3 (fun e he => Or.inr (Or.inr (Or.inl ⟨_, he⟩))) (fun _ h => h)
      cases e3 with
      | some err =>
        exact Or.inl ⟨Or.inr (Or.inr (Or.inl rfl)), Frame.log f3 (by simp [sessEvent])⟩
      | none =>
        simp only []
        have h4 := ReadFile_frame name w3
        generalize ReadFile name w3 = r4 at h4 ⊢
        obtain ⟨e4, w4⟩ := r4
        have f4 : Frame (sessEvent name) (fun p => p = name) w w4 :=
          Frame.step f3 h4 (fun e he => Or.inr (Or.inr (Or.inr (Or.inl he)))) (fun _ h => h.elim)
        cases e4 with
        | error err =>
          exact Or.inl ⟨Or.inr (Or.inr (Or.inr rfl)), Frame.log f4 (by simp [sessEvent])⟩
        | ok updated =>
          simp only []
          right
          refine ⟨w4, updated, f4, ?_⟩
          generalize encryptPgpFile sys updated key pass F w4 = r5
          obtain ⟨e5, w5⟩ := r5
          cases e5 with
          | some err => exact Or.inl ⟨err, rfl, rfl⟩
          | none => exact Or.inr ⟨rfl, rfl⟩

/-- The ways `editCmd` goes on the secret file `F`: it stops before loading, or it loads
and stops, or it fails to create the scratch file, or it runs the session and removes the
scratch file. -/
theorem editCmd_cases (sys : Sys) (F : String) (rest : List String) (w : World) :
    (((editCmd sys (F :: rest) w).1 = .keyFileError ∨
        (editCmd sys (F :: rest) w).1 = .promptError) ∧
      Frame (loadEvent F) (fun _ => False) w (editCmd sys (F :: rest) w).2) ∨
    (∃ key line wp, w.fs "private.key" = some key ∧ sys.ReadString w.clock = .ok line ∧
      Frame (loadEvent F) (fun _ => False) w wp ∧
      ((∃ ex, (editCmd.load sys F key (TrimSpace line) wp).1 = .error ex ∧
          editCmd sys (F :: rest) w = (ex, (editCmd.load sys F key (TrimSpace line) wp).2)) ∨
        (∃ content, (editCmd.load sys F key (TrimSpace line) wp).1 = .ok content ∧
          ((∃ err w2, TempFile sys (editCmd.load sys F key (TrimSpace line) wp).2 =
                (.error err, w2) ∧
              editCmd sys (F :: rest) w =
                (.tempFileError, w2.log (.Print ("Error: " ++ err.text ++ "\n")))) ∨
            (∃ name w2 editor,
              TempFile sys (editCmd.load sys F key (TrimSpace line) wp).2 = (.ok name, w2) ∧
              editCmd sys (F :: rest) w =
                ((editCmd.session sys F key (TrimSpace line) content editor name w2).1,
                  (Remove sys name
                    (editCmd.session sys F key (TrimSpace line) content editor name w2).2).2)))))) := by
  unfold editCmd ReadFile promptPassword
  simp only [log_fs, log_clock]
  cases hk : w.fs "private.key" with
  | none =>
    left
    refine ⟨Or.inl rfl, ?_⟩
    simp only []
    repeat (first | exact Frame.refl _ _ _ | apply Frame.tick | apply Frame.log)
    all_goals simp [loadEvent]
  | some key =>
    simp only [log_clock]
    cases hl : sys.ReadString w.clock with
    | error err =>
      left
      refine ⟨Or.inr rfl, ?_⟩
      simp only []
      repeat (first | exact Frame.refl _ _ _ | apply Frame.tick | apply Frame.log)
      all_goals simp [loadEvent]
    | ok line =>
      right
      simp only []
      refine ⟨key, line, (((w.log (.ReadFile "private.key")).log (.Call .promptPassword)).log
        (.Print "Enter passphrase for private key: ")).tick, rfl, rfl, ?_, ?_⟩
      rotate_left
      · generalize editCmd.load sys F key (TrimSpace line)
          (((w.log (.ReadFile "private.key")).log (.Call .promptPassword)).log
            (.Print "Enter passphrase for private key: ")).tick = rl
        obtain ⟨res, w1⟩ := rl
        cases res with
        | error ex => exact Or.inl ⟨ex, rfl, rfl⟩
        | ok content =>
          right
          refine ⟨content, rfl, ?_⟩
          simp only []
          generalize hT : TempFile sys w1 = rt
          obtain ⟨tres, w2⟩ := rt
          cases tres with
          | error err => exact Or.inl ⟨err, w2, rfl, rfl⟩
          | ok name => exact Or.inr ⟨name, w2, _, rfl, rfl⟩
      · repeat (first | exact Frame.refl _ _ _ | apply Frame.tick | apply Frame.log)
        all_goals simp [loadEvent]

theorem editCmd_load_frame (sys : Sys) (F key pass : String) (w : World) :
    Frame (fun e => loadEvent F e ∨ encEvent F e ∨ decEvent F e) (fun p => p = F) w
      (editCmd.load sys F key pass w).2 := by
  rcases editCmd_load_cases sys F key pass w with
    ⟨_, w0, h0, ⟨err, _, h⟩ | ⟨_, h⟩⟩ | ⟨c, w0, _, h0, ⟨err, s, _, h⟩ | ⟨content, _, h⟩⟩
  · rw [h]
    exact Frame.log (Frame.step (Frame.mono h0 (fun e he => Or.inl he) (fun _ h => h.elim))
      (encryptPgpFile_frame sys "" key pass F w0) (fun e he => Or.inr (Or.inl he))
      (fun _ h => h)) (Or.inl (Or.inr (Or.inr (Or.inr ⟨_, rfl⟩))))
  · rw [h]
    exact Frame.step (Frame.mono h0 (fun e he => Or.inl he) (fun _ h => h.elim))
      (encryptPgpFile_frame sys "" key pass F w0) (fun e he => Or.inr (Or.inl he))
      (fun _ h => h)
  · rw [h]
    exact Frame.log (Frame.step (Frame.mono h0 (fun e he => Or.inl he) (fun _ h => h.elim))
      (decryptPgpFile_frame sys F key pass w0) (fun e he => Or.inr (Or.inr he))
      (fun _ h => h.elim)) (Or.inl (Or.inr (Or.inr (Or.inr ⟨_, rfl⟩))))
  · rw [h]
    exact Frame.step (Frame.mono h0 (fun e he => Or.inl he) (fun _ h => h.elim))
      (decryptPgpFile_frame sys F key pass w0) (fun e he => Or.inr (Or.inr he))
      (fun _ h => h.elim)

theorem editCmd_session_frame (sys : Sys) (F key pass content editor name : String)
    (w : World) :
    Frame (fun e => sessEvent name e ∨ encEvent F e) (fun p => p = name ∨ p = F) w
      (editCmd.session sys F key pass content editor name w).2 := by
  rcases editCmd_session_cases sys F key pass content editor name w with
    ⟨_, h⟩ | ⟨w0, updated, h0, ⟨err, _, h⟩ | ⟨_, h⟩⟩
  · exact Frame.mono h (fun e he => Or.inl he) (fun _ h => Or.inl h)
  · rw [h]
    exact Frame.log (Frame.step (Frame.mono h0 (fun e he => Or.inl he) (fun _ h => Or.inl h))
      (encryptPgpFile_frame sys updated key pass F w0) (fun e he => Or.inr he)
      (fun _ h => Or.inr h)) (Or.inl (Or.inr (Or.inr (Or.inr (Or.inr ⟨_, rfl⟩)))))
  · rw [h]
    exact Frame.log (Frame.step (Frame.mono h0 (fun e he => Or.inl he) (fun _ h => Or.inl h))
      (encryptPgpFile_frame sys updated key pass F w0) (fun e he => Or.inr he)
      (fun _ h => Or.inr h)) (Or.inl (Or.inr (Or.inr (Or.inr (Or.inr ⟨_, rfl⟩)))))

theorem loadEvent_not_TempFile {F n : String} : ¬ loadEvent F (.TempFile n) := by
  simp [loadEvent]

theorem encEvent_not_TempFile {F n : String} : ¬ encEvent F (.TempFile n) := by
  simp [encEvent]

theorem decEvent_not_TempFile {F n : String} : ¬ decEvent F (.TempFile n) := by
  simp [decEvent]

theorem sessEvent_not_TempFile {name n : String} : ¬ sessEvent name (.TempFile n) := by
  simp [sessEvent]

/-! ## Scratch cleanup -/

theorem editCmd_load_exit (sys : Sys) (F key pass : String) (w : World) (ex : EditExit)
    (h : (editCmd.load sys F key pass w).1 = .error ex) :
    ex = .createError ∨ ex = .decryptError := by
  rcases editCmd_load_cases sys F key pass w with
    ⟨_, w0, h0, ⟨err, _, h1⟩ | ⟨_, h1⟩⟩ | ⟨c, w0, _, h0, ⟨err, s, _, h1⟩ | ⟨content, _, h1⟩⟩
  all_goals
    rw [h1] at h
    simp at h
  · exact Or.inl h.symm
  · exact Or.inr h.symm

/-- The events and the final state of a run of `editCmd` that creates the scratch file
`nm`: the events of the load, the creation, the events of the session, and last the call of
`os.Remove`, after which the scratch file is absent unless the removal was refused. -/
theorem editCmd_session_since (sys : Sys) (F : String) (rest : List String) (w wp w2 : World)
    (key line content nm editor : String)
    (hp : Frame (loadEvent F) (fun _ => False) w wp)
    (hT : TempFile sys (editCmd.load sys F key (TrimSpace line) wp).2 = (.ok nm, w2))
    (h : editCmd sys (F :: rest) w =
      ((editCmd.session sys F key (TrimSpace line) content editor nm w2).1,
        (Remove sys nm
          (editCmd.session sys F key (TrimSpace line) content editor nm w2).2).2)) :
    ∃ err ds dl,
      (editCmd.session sys F key (TrimSpace line) content editor nm w2).2.trace =
        ds ++ w2.trace ∧
      (∀ e ∈ ds, sessEvent nm e ∨ encEvent F e) ∧
      (editCmd.load sys F key (TrimSpace line) wp).2.trace = dl ++ w.trace ∧
      (∀ e ∈ dl, loadEvent F e ∨ encEvent F e ∨ decEvent F e) ∧
      (editCmd sys (F :: rest) w).2.since w = .Remove nm err :: (ds ++ .TempFile nm :: dl) ∧
      (editCmd sys (F :: rest) w).2.trace.head? = some (.Remove nm err) ∧
      ((editCmd sys (F :: rest) w).2.fs nm = none ∨
        ∃ t e, sys.RemoveErr t nm = some e ∧ err = some e) ∧
      ∀ p, p ≠ nm → (editCmd sys (F :: rest) w).2.fs p =
        (editCmd.session sys F key (TrimSpace line) content editor nm w2).2.fs p := by
  obtain ⟨dl, hdl, hPl⟩ := (Frame.step
    (Frame.mono hp (fun e he => Or.inl he) (fun _ h => h.elim))
    (editCmd_load_frame sys F key (TrimSpace line) wp) (fun e he => he) (fun _ h => h)).trace
  obtain ⟨ds, hds, hPs⟩ :=
    (editCmd_session_frame sys F key (TrimSpace line) content editor nm w2).trace
  obtain ⟨err, htr, _, hfs⟩ := Remove_cases sys nm
    (editCmd.session sys F key (TrimSpace line) content editor nm w2).2
  have hT2 := (TempFile_ok hT).2.2.1
  refine ⟨err, ds, dl, hds, hPs, hdl, hPl, ?_, ?_, ?_, ?_⟩
  · rw [h]
    exact since_of_append (by simp only []; rw [htr, hds, hT2, hdl]; simp)
  · rw [h]
    simp only []
    rw [htr]
    rfl
  · rw [h]
    simp only []
    rcases hfs with h1 | ⟨e, he, hee, _⟩
    · exact Or.inl h1
    · exact Or.inr ⟨_, e, he, hee⟩
  · intro q hq
    rw [h]
    exact (Remove_frame sys nm _).fs q hq

/-- A scratch file created by a run of `editCmd` is handed to `os.Remove` as the last effect
of the run, and is absent afterwards unless the removal was refused. -/
theorem editCmd_scratch_removed (sys : Sys) (args : List String) (w : World) (name : String)
    (hmem : Event.TempFile name ∈ (editCmd sys args w).2.since w) :
    ∃ err, (editCmd sys args w).2.trace.head? = some (.Remove name err) ∧
      ((editCmd sys args w).2.fs name = none ∨
        ∃ t e, sys.RemoveErr t name = some e ∧ err = some e) := by
  cases args with
  | nil =>
    unfold editCmd at hmem
    rw [since_of_append (d := [.Print "Please specify a secret file.\n"]) (by simp)] at hmem
    simp at hmem
  | cons F rest =>
    rcases editCmd_cases sys F rest w with
      ⟨_, hf⟩ | ⟨key, line, wp, _, _, hp, ⟨ex, _, h⟩ | ⟨content, _,
        ⟨err, w2, hT, h⟩ | ⟨nm, w2, editor, hT, h⟩⟩⟩
    · exact absurd (hf.since _ hmem) loadEvent_not_TempFile
    · rw [h] at hmem
      have hl := Frame.step (Frame.mono hp (fun e he => Or.inl he) (fun _ h => h.elim))
        (editCmd_load_frame sys F key (TrimSpace line) wp) (fun e he => he) (fun _ h => h)
      rcases hl.since _ hmem with h1 | h1 | h1
      · exact absurd h1 loadEvent_not_TempFile
      · exact absurd h1 encEvent_not_TempFile
      · exact absurd h1 decEvent_not_TempFile
    · rw [h] at hmem
      have hl := Frame.log (e := .Print ("Error: " ++ err.text ++ "\n"))
        (Frame.step (Frame.step
          (Frame.mono hp (fun e he => Or.inl he) (fun _ h => h.elim))
          (editCmd_load_frame sys F key (TrimSpace line) wp) (fun e he => he) (fun _ h => h))
          (TempFile_error hT) (fun _ h => h.elim) (fun _ h => h.elim))
        (Or.inl (Or.inr (Or.inr (Or.inr ⟨_, rfl⟩))))
      rcases hl.since _ hmem with h1 | h1 | h1
      · exact absurd h1 loadEvent_not_TempFile
      · exact absurd h1 encEvent_not_TempFile
      · exact absurd h1 decEvent_not_TempFile
    · obtain ⟨err, ds, dl, _, hPs, _, hPl, hsince, hhead, hfs, _⟩ :=
        editCmd_session_since sys F rest w wp w2 key line content nm editor hp hT h
      rw [hsince] at hmem
      have hnm : name = nm := by
        rcases List.mem_cons.mp hmem with h1 | h1
        · simp at h1
        · rcases List.mem_append.mp h1 with h2 | h2
          · rcases hPs _ h2 with h3 | h3
            · exact absurd h3 sessEvent_not_TempFile
            · exact absurd h3 encEvent_not_TempFile
          · rcases List.mem_cons.mp h2 with h3 | h3
            · simpa using h3
            · rcases hPl _ h3 with h4 | h4 | h4
              · exact absurd h4 loadEvent_not_TempFile
              · exact absurd h4 encEvent_not_TempFile
              · exact absurd h4 decEvent_not_TempFile
      subst hnm
      exact ⟨err, hhead, hfs⟩

/-- A run of `editCmd` that ends at one of the six exits after the creation of the scratch file
has created a scratch file. -/
theorem editCmd_scratch_created (sys : Sys) (args : List String) (w : World)
    (hex : (editCmd sys args w).1 = .writeError ∨ (editCmd sys args w).1 = .closeError ∨
      (editCmd sys args w).1 = .editorError ∨ (editCmd sys args w).1 = .readBackError ∨
      (editCmd sys args w).1 = .encryptError ∨ (editCmd sys args w).1 = .updated) :
    ∃ name, Event.TempFile name ∈ (editCmd sys args w).2.since w := by
  cases args with
  | nil =>
    unfold editCmd at hex
    simp at hex
  | cons F rest =>
    rcases editCmd_cases sys F rest w with
      ⟨hx, _⟩ | ⟨key, line, wp, _, _, hp, ⟨ex, hl, h⟩ | ⟨content, _,
        ⟨err, w2, hT, h⟩ | ⟨nm, w2, editor, hT, h⟩⟩⟩
    · rcases hx with hx | hx <;> rw [hx] at hex <;> simp at hex
    · rw [h] at hex
      rcases editCmd_load_exit sys F key (TrimSpace line) wp ex hl with rfl | rfl <;>
        simp at hex
    · rw [h] at hex
      simp at hex
    · obtain ⟨err, ds, dl, _, _, _, _, hsince, _⟩ :=
        editCmd_session_since sys F rest w wp w2 key line content nm editor hp hT h
      exact ⟨nm, by rw [hsince]; simp⟩

/-- C3 as stated fails: on a system whose operating system refuses the removal, a run of
`editCmd` creates the scratch file `/tmp/secret1` and returns with the file still there,
holding the edited plaintext; the error of `os.Remove` is discarded. -/
theorem scratch_file_counterexample :
    ¬ ∀ (sys : Sys) (args : List String) (w : World) (name : String),
      Event.TempFile name ∈ (editCmd sys args w).2.since w →
      (editCmd sys args w).2.fs name = none := by
  intro h
  have h1 := h (stuckSys "p1\n" (some "FOO=bar\n") none) ["secrets.gpg"]
    (toyWorld [("private.key", "Lrp1")]) "/tmp/secret1" (by decide)
  revert h1
  decide

/-- C3, amended. Scratch cleanup: for every run of `editCmd`, whatever its outcome, a
temporary file created by the run is handed to `os.Remove` as the last effect of the run, and
it does not exist in the file system when `editCmd` returns unless the operating system has
refused that removal (the error `os.Remove` returns is discarded); and a run that ends with a
failure to write or to close the scratch file, an editor failure, a read-back failure, an
encryption failure or a success has created such a file. -/
theorem scratch_file_removed (sys : Sys) (args : List String) (w : World) :
    (∀ name, Event.TempFile name ∈ (editCmd sys args w).2.since w →
      ∃ err, (editCmd sys args w).2.trace.head? = some (.Remove name err) ∧
        ((editCmd sys args w).2.fs name = none ∨
          ∃ t e, sys.RemoveErr t name = some e ∧ err = some e)) ∧
    ((editCmd sys args w).1 = .writeError ∨ (editCmd sys args w).1 = .closeError ∨
        (editCmd sys args w).1 = .editorError ∨ (editCmd sys args w).1 = .readBackError ∨
        (editCmd sys args w).1 = .encryptError ∨ (editCmd sys args w).1 = .updated →
      ∃ name, Event.TempFile name ∈ (editCmd sys args w).2.since w) := by
  exact ⟨fun name h => editCmd_scratch_removed sys args w name h,
    fun hex => editCmd_scratch_created sys args w hex⟩

/-- C3 amended, on the concrete system, whose operating system refuses no removal: the editor
fails; the scratch file it was handed is gone. -/
theorem scratch_file_removed_witness :
    Event.TempFile "/tmp/secret1" ∈
        (editCmd (toySys "p1\n" (some "FOO=bar\n") (some (.Other "exit status 1")))
          ["secrets.gpg"] (toyWorld [("private.key", "Lrp1")])).2.since
          (toyWorld [("private.key", "Lrp1")]) ∧
      (editCmd (toySys "p1\n" (some "FOO=bar\n") (some (.Other "exit status 1")))
        ["secrets.gpg"] (toyWorld [("private.key", "Lrp1")])).2.fs "/tmp/secret1" = none := by
  have hmem : Event.TempFile "/tmp/secret1" ∈
      (editCmd (toySys "p1\n" (some "FOO=bar\n") (some (.Other "exit status 1")))
        ["secrets.gpg"] (toyWorld [("private.key", "Lrp1")])).2.since
        (toyWorld [("private.key", "Lrp1")]) := by decide
  refine ⟨hmem, ?_⟩
  obtain ⟨err, _, h | ⟨t, e, he, _⟩⟩ :=
    (scratch_file_removed (toySys "p1\n" (some "FOO=bar\n") (some (.Other "exit status 1")))
      ["secrets.gpg"] (toyWorld [("private.key", "Lrp1")])).1 "/tmp/secret1" hmem
  · exact h
  · exact absurd he (by simp [toySys])

/-! ## Failed transactions -/

/-- On an existing secret file `editCmd.load` only reads: it changes no file and its events
are those of `decryptPgpFile`, `Stat` and printing. -/
theorem editCmd_load_existing (sys : Sys) (F key pass : String) (w : World) (c : String)
    (hex : w.fs F = some c) :
    Frame (fun e => loadEvent F e ∨ decEvent F e) (fun _ => False) w
        (editCmd.load sys F key pass w).2 ∧
      ∀ ex, (editCmd.load sys F key pass w).1 = .error ex → ex = .decryptError := by
  rcases editCmd_load_cases sys F key pass w with
    ⟨hn, _⟩ | ⟨c, w0, _, h0, ⟨err, s, _, h⟩ | ⟨content, _, h⟩⟩
  · rw [hex] at hn
    simp at hn
  · rw [h]
    refine ⟨Frame.log (Frame.step (Frame.mono h0 (fun e he => Or.inl he) (fun _ h => h))
      (decryptPgpFile_frame sys F key pass w0) (fun e he => Or.inr he) (fun _ h => h))
      (Or.inl (Or.inr (Or.inr (Or.inr ⟨_, rfl⟩)))), ?_⟩
    intro ex hx
    simp at hx
    exact hx.symm
  · rw [h]
    refine ⟨Frame.step (Frame.mono h0 (fun e he => Or.inl he) (fun _ h => h))
      (decryptPgpFile_frame sys F key pass w0) (fun e he => Or.inr he) (fun _ h => h), ?_⟩
    intro ex hx
    simp at hx

/-- C5. Failed transaction leaves the file untouched: for every run of `editCmd` on an
existing secret file that ends because decryption fails or because the editor fails, the
content of the secret file (indeed of every file but the scratch file, and of every file when
the operating system refuses no removal) when `editCmd` returns is its content before the run,
and `encryptPgpFile` is never called; when decryption fails, moreover, no scratch file is
created and no process is run. -/
theorem failed_transaction_untouched (sys : Sys) (F : String) (rest : List String) (w : World)
    (c : String) (hex : w.fs F = some c)
    (hfail : (editCmd sys (F :: rest) w).1 = .decryptError ∨
      (editCmd sys (F :: rest) w).1 = .editorError) :
    (editCmd sys (F :: rest) w).2.fs F = some c ∧
      (∀ p, Event.TempFile p ∉ (editCmd sys (F :: rest) w).2.since w →
        (editCmd sys (F :: rest) w).2.fs p = w.fs p) ∧
      ((∀ t name, sys.RemoveErr t name = none) → (editCmd sys (F :: rest) w).2.fs = w.fs) ∧
      Event.Call .encryptPgpFile ∉ (editCmd sys (F :: rest) w).2.since w ∧
      ((editCmd sys (F :: rest) w).1 = .decryptError →
        (∀ name, Event.TempFile name ∉ (editCmd sys (F :: rest) w).2.since w) ∧
        ∀ name args, Event.Run name args ∉ (editCmd sys (F :: rest) w).2.since w) := by
  rcases editCmd_cases sys F rest w with
    ⟨hx, _⟩ | ⟨key, line, wp, _, _, hp, ⟨ex, hl, h⟩ | ⟨content, _,
      ⟨err, w2, hT, h⟩ | ⟨nm, w2, editor, hT, h⟩⟩⟩
  · rcases hx with hx | hx <;> rw [hx] at hfail <;> simp at hfail
  · have hwp : wp.fs F = some c := by rw [hp.fs F (fun h => h)]; exact hex
    have hf := Frame.step (Frame.mono hp (fun e he => Or.inl he) (fun _ h => h))
      (editCmd_load_existing sys F key (TrimSpace line) wp c hwp).1 (fun e he => he)
      (fun _ h => h)
    rw [h]
    refine ⟨by rw [hf.fs F (fun h => h)]; exact hex, fun p _ => hf.fs p (fun h => h),
      fun _ => funext fun p => hf.fs p (fun h => h), ?_, fun _ => ⟨?_, ?_⟩⟩
    · intro hmem
      rcases hf.since _ hmem with h1 | h1
      · simp [loadEvent] at h1
      · simp [decEvent] at h1
    · intro name hmem
      rcases hf.since _ hmem with h1 | h1
      · simp [loadEvent] at h1
      · simp [decEvent] at h1
    · intro name args hmem
      rcases hf.since _ hmem with h1 | h1
      · simp [loadEvent] at h1
      · simp [decEvent] at h1
  · rw [h] at hfail
    simp at hfail
  · have hwp : wp.fs F = some c := by rw [hp.fs F (fun h => h)]; exact hex
    have hl := Frame.step (Frame.mono hp (fun e he => Or.inl he) (fun _ h => h))
      (editCmd_load_existing sys F key (TrimSpace line) wp c hwp).1 (fun e he => he)
      (fun _ h => h)
    obtain ⟨hnone, _, _, hT2⟩ := TempFile_ok hT
    obtain ⟨rerr, ds, dl, _, _, _, _, hsince, _, hrm, _⟩ :=
      editCmd_session_since sys F rest w wp w2 key line content nm editor hp hT h
    have hwnm : w.fs nm = none := by rw [← hl.fs nm (fun h => h)]; exact hnone
    have hne : F ≠ nm := by
      intro heq
      rw [heq, hwnm] at hex
      simp at hex
    rcases editCmd_session_cases sys F key (TrimSpace line) content editor nm w2 with
      ⟨_, hs⟩ | ⟨w0, updated, h0, ⟨err, _, hs⟩ | ⟨_, hs⟩⟩
    · have hf : Frame (fun e => e = .TempFile nm ∨ (∃ err, e = .Remove nm err) ∨ loadEvent F e ∨
          decEvent F e ∨ sessEvent nm e) (fun p => p = nm) w (editCmd sys (F :: rest) w).2 := by
        rw [h]
        refine Frame.step (Frame.step (Frame.step
          (Frame.mono hl ?_ (fun _ h => h.elim))
          hT2 (fun e he => Or.inl he) (fun _ h => h))
          hs (fun e he => Or.inr (Or.inr (Or.inr (Or.inr he)))) (fun _ h => h))
          (Remove_frame sys nm _) (fun e he => Or.inr (Or.inl he)) (fun _ h => h)
        rintro e (he | he)
        · exact Or.inr (Or.inr (Or.inl he))
        · exact Or.inr (Or.inr (Or.inr (Or.inl he)))
      have hmemT : Event.TempFile nm ∈ (editCmd sys (F :: rest) w).2.since w := by
        rw [hsince]
        simp
      refine ⟨by rw [hf.fs F hne]; exact hex, ?_, ?_, ?_, ?_⟩
      · intro p hp2
        exact hf.fs p (fun heq => hp2 (heq ▸ hmemT))
      · intro hno
        funext p
        by_cases hp2 : p = nm
        · subst hp2
          rcases hrm with h1 | ⟨t, e, he, _⟩
          · rw [h1, hwnm]
          · rw [hno t p] at he
            simp at he
        · exact hf.fs p hp2
      · intro hmem
        rcases hf.since _ hmem with h1 | ⟨_, h1⟩ | h1 | h1 | h1
        · simp at h1
        · simp at h1
        · simp [loadEvent] at h1
        · simp [decEvent] at h1
        · simp [sessEvent] at h1
      · intro hd
        rcases hfail with hfail | hfail
        · rcases editCmd_session_cases sys F key (TrimSpace line) content editor nm w2 with
            ⟨hx, _⟩ | ⟨w0, updated, h0, ⟨err, _, hs2⟩ | ⟨_, hs2⟩⟩
          · rw [h] at hfail
            simp only [] at hfail
            rw [hfail] at hx
            simp at hx
          · rw [h, hs2] at hfail
            simp at hfail
          · rw [h, hs2] at hfail
            simp at hfail
        · rw [hfail] at hd
          simp at hd
    · rw [h, hs] at hfail
      simp at hfail
    · rw [h, hs] at hfail
      simp at hfail

/-- C5, on the concrete system: the editor fails on an existing secret file. -/
theorem failed_transaction_untouched_witness :
    (toyWorld [("private.key", "Lrp1"), ("secrets.gpg", "AEFOO=bar\n")]).fs "secrets.gpg" =
        some "AEFOO=bar\n" ∧
      (editCmd (toySys "p1\n" (some "FOO=baz\n") (some (.Other "exit status 1")))
        ["secrets.gpg"]
        (toyWorld [("private.key", "Lrp1"), ("secrets.gpg", "AEFOO=bar\n")])).1 = .editorError ∧
      (editCmd (toySys "p1\n" (some "FOO=baz\n") (some (.Other "exit status 1")))
        ["secrets.gpg"]
        (toyWorld [("private.key", "Lrp1"), ("secrets.gpg", "AEFOO=bar\n")])).2.fs
          "secrets.gpg" = some "AEFOO=bar\n" :=
  ⟨by decide, by decide,
    (failed_transaction_untouched (toySys "p1\n" (some "FOO=baz\n") (some (.Other "exit status 1")))
      "secrets.gpg" [] (toyWorld [("private.key", "Lrp1"), ("secrets.gpg", "AEFOO=bar\n")])
      "AEFOO=bar\n" (by decide) (Or.inr (by decide))).1⟩

/-! ## New-file initialization -/

theorem WriteFile_trace (sys : Sys) (path data : String) (perm : Nat) (w : World) :
    (WriteFile sys path data perm w).2.trace = .WriteFile path data perm :: w.trace := by
  unfold WriteFile
  simp only []
  split <;> simp

/-- In a list `A ++ B` split at an element that is not in `B`, what follows the element ends
with `B`. -/
theorem suffix_of_split {α : Type} {A B l1 l2 : List α} {e : α}
    (h : A ++ B = l1 ++ e :: l2) (he : e ∉ B) : ∃ A', l2 = A' ++ B := by
  induction A generalizing l1 with
  | nil =>
    simp only [List.nil_append] at h
    rw [h] at he
    simp at he
  | cons a A ih =>
    cases l1 with
    | nil =>
      simp only [List.cons_append, List.nil_append, List.cons.injEq] at h
      exact ⟨A, h.2.symm⟩
    | cons b l1 =>
      simp only [List.cons_append, List.cons.injEq] at h
      exact ih h.2

/-- When the secret file does not exist and `editCmd.load` succeeds, the plaintext is empty
and the file holds the armored encryption of the empty plaintext, written last. -/
theorem editCmd_load_new (sys : Sys) (F key pass : String) (w : World) (content : String)
    (hnew : w.fs F = none) (hok : (editCmd.load sys F key pass w).1 = .ok content) :
    content = "" ∧
    ∃ blob k b u kr m t d, sys.lib.NewKeyFromArmored key = .ok k ∧ sys.lib.IsLocked k = .ok b ∧
      (if b then sys.lib.Unlock k pass else .ok k) = .ok u ∧ sys.lib.NewKeyRing u = .ok kr ∧
      sys.lib.Encrypt kr (sys.lib.NewPlainMessage "") none t = .ok m ∧
      sys.lib.GetArmored m = .ok blob ∧
      (editCmd.load sys F key pass w).2.fs F = some blob ∧
      (editCmd.load sys F key pass w).2.trace = .WriteFile F blob 0o644 :: (d ++ w.trace) ∧
      (∀ e ∈ d, loadEvent F e ∨ sealEvent e) ∧
      ∀ p, p ≠ F → (editCmd.load sys F key pass w).2.fs p = w.fs p := by
  rcases editCmd_load_cases sys F key pass w with
    ⟨_, w0, h0, ⟨err, _, h⟩ | ⟨hnone, h⟩⟩ | ⟨c, w0, hc, _⟩
  · rw [h] at hok
    simp at hok
  · rw [h] at hok ⊢
    simp only [Except.ok.injEq] at hok
    refine ⟨hok.symm, ?_⟩
    rcases encryptPgpFile_cases sys "" key pass F w0 with
      ⟨err, h1, _⟩ | ⟨k, b, u, kr, m, a, w1, hk, hb, hu, hkr, hm, ha, hf1, hfs1, hW⟩
    · rw [hnone] at h1
      simp at h1
    · have hW2 : WriteFile sys F a 0o644 w1 = (none, (encryptPgpFile sys "" key pass F w0).2) := by
        rw [← hW]
        exact Prod.ext hnone rfl
      obtain ⟨d0, hd0, hP0⟩ := h0.trace
      obtain ⟨d1, hd1, hP1⟩ := hf1.trace
      refine ⟨a, k, b, u, kr, m, _, d1 ++ d0, hk, hb, hu, hkr, hm, ha, WriteFile_ok hW2, ?_, ?_, ?_⟩
      · simp only []
        rw [hW, WriteFile_trace, hd1, hd0, List.append_assoc]
      · intro e he
        rcases List.mem_append.mp he with h2 | h2
        · exact Or.inr (hP1 e h2)
        · exact Or.inl (hP0 e h2)
      · intro p hp
        simp only []
        rw [(encryptPgpFile_frame sys "" key pass F w0).fs p hp, h0.fs p (fun h => h)]
  · rw [hnew] at hc
    simp at hc

/-- The two early exits of `editCmd`: `keyFileError` is taken exactly when the key file does
not exist, `promptError` exactly when it exists and the prompt fails. -/
theorem editCmd_early (sys : Sys) (F : String) (rest : List String) (w : World) :
    ((editCmd sys (F :: rest) w).1 = .keyFileError → w.fs "private.key" = none) ∧
    ((editCmd sys (F :: rest) w).1 = .promptError →
      (∃ key, w.fs "private.key" = some key) ∧ ∃ err, sys.ReadString w.clock = .error err) := by
  cases hk : w.fs "private.key" with
  | none =>
    have hx : (editCmd sys (F :: rest) w).1 = .keyFileError := by
      unfold editCmd ReadFile
      simp [hk]
    rw [hx]
    exact ⟨fun _ => rfl, fun h => by simp at h⟩
  | some key =>
    cases hl : sys.ReadString w.clock with
    | error err =>
      have hx : (editCmd sys (F :: rest) w).1 = .promptError := by
        unfold editCmd ReadFile promptPassword
        simp [hk, hl]
      rw [hx]
      exact ⟨fun h => by simp at h, fun _ => ⟨⟨key, rfl⟩, ⟨err, rfl⟩⟩⟩
    | ok line =>
      have hx : (editCmd sys (F :: rest) w).1 ≠ .keyFileError ∧
          (editCmd sys (F :: rest) w).1 ≠ .promptError := by
        unfold editCmd ReadFile promptPassword
        simp only [log_fs, hk, log_clock, hl]
        generalize hL : editCmd.load sys F key (TrimSpace line)
          (((w.log (.ReadFile "private.key")).log (.Call .promptPassword)).log
            (.Print "Enter passphrase for private key: ")).tick = rl
        obtain ⟨res, w1⟩ := rl
        cases res with
        | error ex =>
          have := editCmd_load_exit sys F key (TrimSpace line) _ ex (by rw [hL])
          rcases this with rfl | rfl <;> simp
        | ok content =>
          simp only []
          generalize TempFile sys w1 = rt
          obtain ⟨tres, w2⟩ := rt
          cases tres with
          | error err => simp
          | ok name =>
            simp only []
            rcases editCmd_session_cases sys F key (TrimSpace line) content
                (if Getenv "EDITOR" w1 = "" then "vi" else Getenv "EDITOR" w1) name w2 with
              ⟨hx, _⟩ | ⟨w0, updated, _, ⟨err, _, hs⟩ | ⟨_, hs⟩⟩
            · rcases hx with hx | hx | hx | hx <;> rw [hx] <;> simp
            · rw [hs]
              simp
            · rw [hs]
              simp
      exact ⟨fun h => absurd h hx.1, fun h => absurd h hx.2⟩

/-- As long as `editCmd.session` attempts no write, the secret file is as it was when the
session started. -/
theorem editCmd_session_nowrite (sys : Sys) (F key pass content editor name : String)
    (w : World) (hne : F ≠ name) :
    ∃ ds, (editCmd.session sys F key pass content editor name w).2.trace = ds ++ w.trace ∧
      ((∀ e ∈ ds, notWriteFile e) →
        (editCmd.session sys F key pass content editor name w).2.fs F = w.fs F) := by
  rcases editCmd_session_cases sys F key pass content editor name w with
    ⟨_, hs⟩ | ⟨w0, updated, h0, hcase⟩
  · obtain ⟨ds, hds, _⟩ := hs.trace
    exact ⟨ds, hds, fun _ => hs.fs F hne⟩
  · obtain ⟨d0, hd0, _⟩ := h0.trace
    have key2 : ∀ msg : String,
        editCmd.session sys F key pass content editor name w =
          ((editCmd.session sys F key pass content editor name w).1,
            (encryptPgpFile sys updated key pass F w0).2.log (.Print msg)) →
        ∃ ds, (editCmd.session sys F key pass content editor name w).2.trace = ds ++ w.trace ∧
          ((∀ e ∈ ds, notWriteFile e) →
            (editCmd.session sys F key pass content editor name w).2.fs F = w.fs F) := by
      intro msg hs
      rcases encryptPgpFile_cases sys updated key pass F w0 with
        ⟨err2, _, hfs, hf⟩ | ⟨k, b, u, kr, m, a, w1, _, _, _, _, _, _, hf1, _, hW⟩
      · obtain ⟨d1, hd1, _⟩ := hf.trace
        refine ⟨.Print msg :: (d1 ++ d0), ?_, fun _ => ?_⟩
        · rw [hs]
          simp [hd1, hd0]
        · rw [hs]
          simp only [log_fs]
          rw [hfs, h0.fs F hne]
      · obtain ⟨d1, hd1, _⟩ := hf1.trace
        refine ⟨.Print msg :: .WriteFile F a 0o644 :: (d1 ++ d0), ?_, fun hno => ?_⟩
        · rw [hs, hW]
          simp [WriteFile_trace, hd1, hd0]
        · exact absurd rfl (hno (.WriteFile F a 0o644) (by simp) F a 0o644)
    rcases hcase with ⟨err, _, hs⟩ | ⟨_, hs⟩
    · exact key2 _ (by rw [hs])
    · exact key2 _ (by rw [hs])

/-- C4 as stated fails: on a library whose `Decrypt` does not invert its `Encrypt`, a run of
`editCmd` on a secret file that does not exist writes the initial blob `AE` before it runs the
editor, the editor fails and the secret file holds the initial blob, which does not decrypt
with the same key and passphrase. -/
theorem new_file_counterexample :
    (toyWorld [("private.key", "Lrp1")]).fs "secrets.gpg" = none ∧
      (editCmd (deafSys "p1\n" (some "FOO=bar\n")) ["secrets.gpg"]
        (toyWorld [("private.key", "Lrp1")])).2.since (toyWorld [("private.key", "Lrp1")]) =
        [.Remove "/tmp/secret1" none, .Print "Error: exit status 1\n",
          .Run "vi" ["/tmp/secret1"], .Close "/tmp/secret1", .Write "/tmp/secret1" "",
          .TempFile "/tmp/secret1", .WriteFile "secrets.gpg" "AE" 0o644, .Lib .GetArmored,
          .Lib .Encrypt, .Lib .NewPlainMessage, .Lib .NewKeyRing, .Lib .Unlock, .Lib .IsLocked,
          .Lib .NewKeyFromArmored, .Call .encryptPgpFile,
          .Print "Secret file does not exist. Creating a new one.\n", .Stat "secrets.gpg",
          .Print "Enter passphrase for private key: ", .Call .promptPassword,
          .ReadFile "private.key"] ∧
      (editCmd (deafSys "p1\n" (some "FOO=bar\n")) ["secrets.gpg"]
        (toyWorld [("private.key", "Lrp1")])).2.fs "secrets.gpg" = some "AE" ∧
      (decryptPgpFile (deafSys "p1\n" (some "FOO=bar\n")) "secrets.gpg" "Lrp1" (TrimSpace "p1\n")
        (editCmd (deafSys "p1\n" (some "FOO=bar\n")) ["secrets.gpg"]
          (toyWorld [("private.key", "Lrp1")])).2).1 =
        ("", some (.Other "gopenpgp: error in reading message")) := by
  decide

/-- C4, amended. New-file initialization: on a secret file path that does not exist, a run of
`editCmd` either (1) stops because the key file does not exist, or (2) stops because the prompt
fails, or (3) stops because the initial encryption fails (exit `createError`), in all three
cases without creating a scratch file and without running any process, or (4) goes on, having
written to the secret file the armored encryption `blob` of the empty plaintext: that write is
among the events of the run and comes before every creation of a scratch file and every process
run; the secret file holds `blob` when the run returns, as long as no later write is attempted
(so at every exit before the re-encryption); and `blob` decrypts with the same key and
passphrase to the empty string, assuming that the library's `Decrypt` inverts `Encrypt` on the
same key ring and that de-armoring an armored message is lossless. -/
theorem new_file_initialized (sys : Sys) (F : String) (rest : List String) (w : World)
    (hnew : w.fs F = none) :
    ((editCmd sys (F :: rest) w).1 = .keyFileError ∧ w.fs "private.key" = none ∧
      (editCmd sys (F :: rest) w).2.fs = w.fs ∧
      (∀ name, Event.TempFile name ∉ (editCmd sys (F :: rest) w).2.since w) ∧
      ∀ name args, Event.Run name args ∉ (editCmd sys (F :: rest) w).2.since w) ∨
    ((editCmd sys (F :: rest) w).1 = .promptError ∧
      (∃ key, w.fs "private.key" = some key) ∧ (∃ err, sys.ReadString w.clock = .error err) ∧
      (editCmd sys (F :: rest) w).2.fs = w.fs ∧
      (∀ name, Event.TempFile name ∉ (editCmd sys (F :: rest) w).2.since w) ∧
      ∀ name args, Event.Run name args ∉ (editCmd sys (F :: rest) w).2.since w) ∨
    ((editCmd sys (F :: rest) w).1 = .createError ∧
      (∃ key line w0 err, w.fs "private.key" = some key ∧ sys.ReadString w.clock = .ok line ∧
        w0.fs = w.fs ∧ (encryptPgpFile sys "" key (TrimSpace line) F w0).1 = some err) ∧
      (∀ name, Event.TempFile name ∉ (editCmd sys (F :: rest) w).2.since w) ∧
      ∀ name args, Event.Run name args ∉ (editCmd sys (F :: rest) w).2.since w) ∨
    (((editCmd sys (F :: rest) w).1 = .tempFileError ∨
        (editCmd sys (F :: rest) w).1 = .writeError ∨
        (editCmd sys (F :: rest) w).1 = .closeError ∨
        (editCmd sys (F :: rest) w).1 = .editorError ∨
        (editCmd sys (F :: rest) w).1 = .readBackError ∨
        (editCmd sys (F :: rest) w).1 = .encryptError ∨
        (editCmd sys (F :: rest) w).1 = .updated) ∧
      ∃ key line blob, w.fs "private.key" = some key ∧ sys.ReadString w.clock = .ok line ∧
        (∃ k b u kr m t, sys.lib.NewKeyFromArmored key = .ok k ∧ sys.lib.IsLocked k = .ok b ∧
          (if b then sys.lib.Unlock k (TrimSpace line) else .ok k) = .ok u ∧
          sys.lib.NewKeyRing u = .ok kr ∧
          sys.lib.Encrypt kr (sys.lib.NewPlainMessage "") none t = .ok m ∧
          sys.lib.GetArmored m = .ok blob) ∧
        Event.WriteFile F blob 0o644 ∈ (editCmd sys (F :: rest) w).2.since w ∧
        (∀ l1 l2 e, (editCmd sys (F :: rest) w).2.since w = l1 ++ e :: l2 →
          ((∃ name, e = .TempFile name) ∨ ∃ name args, e = .Run name args) →
          Event.WriteFile F blob 0o644 ∈ l2) ∧
        ((∀ l1 l2 name, (editCmd sys (F :: rest) w).2.since w = l1 ++ .TempFile name :: l2 →
            ∀ e ∈ l1, notWriteFile e) →
          (editCmd sys (F :: rest) w).2.fs F = some blob) ∧
        ((editCmd sys (F :: rest) w).1 = .tempFileError ∨
            (editCmd sys (F :: rest) w).1 = .writeError ∨
            (editCmd sys (F :: rest) w).1 = .closeError ∨
            (editCmd sys (F :: rest) w).1 = .editorError ∨
            (editCmd sys (F :: rest) w).1 = .readBackError →
          (editCmd sys (F :: rest) w).2.fs F = some blob) ∧
        (DecryptInvertsEncrypt sys.lib → ArmorLossless sys.lib → ∀ wx : World,
          wx.fs F = some blob →
          (decryptPgpFile sys F key (TrimSpace line) wx).1 = ("", none))) := by
  have hearly := editCmd_early sys F rest w
  rcases editCmd_cases sys F rest w with
    ⟨hx, hf⟩ | ⟨key, line, wp, hkey, hline, hp, ⟨ex, hl, h⟩ | ⟨content, hl,
      ⟨err, w2, hT, h⟩ | ⟨nm, w2, editor, hT, h⟩⟩⟩
  · have hno : (∀ name, Event.TempFile name ∉ (editCmd sys (F :: rest) w).2.since w) ∧
        ∀ name args, Event.Run name args ∉ (editCmd sys (F :: rest) w).2.since w := by
      constructor
      · intro name hmem
        have h2 := hf.since _ hmem
        simp [loadEvent] at h2
      · intro name args hmem
        have h2 := hf.since _ hmem
        simp [loadEvent] at h2
    have hfs : (editCmd sys (F :: rest) w).2.fs = w.fs := funext fun p => hf.fs p (fun h => h)
    rcases hx with hx | hx
    · exact Or.inl ⟨hx, hearly.1 hx, hfs, hno⟩
    · exact Or.inr (Or.inl ⟨hx, (hearly.2 hx).1, (hearly.2 hx).2, hfs, hno⟩)
  · -- the load fails: the file does not exist, so the initial encryption has failed
    have hwp : wp.fs F = none := by rw [hp.fs F (fun h => h)]; exact hnew
    refine Or.inr (Or.inr (Or.inl ?_))
    have hf := Frame.step (Frame.mono hp (fun e he => Or.inl he) (fun _ h => h.elim))
      (editCmd_load_frame sys F key (TrimSpace line) wp) (fun e he => he) (fun _ h => h)
    rcases editCmd_load_cases sys F key (TrimSpace line) wp with
      ⟨_, w0, h0, ⟨err, herr, h1⟩ | ⟨_, h1⟩⟩ | ⟨c, w0, hc, _⟩
    · rw [h]
      refine ⟨by rw [h1] at hl; simp at hl; exact hl.symm,
        ⟨key, line, w0, err, hkey, hline, ?_, herr⟩, ?_, ?_⟩
      · funext q
        rw [h0.fs q (fun h => h), hp.fs q (fun h => h)]
      · intro name hmem
        rcases hf.since _ hmem with h2 | h2 | h2
        · simp [loadEvent] at h2
        · simp [encEvent] at h2
        · simp [decEvent] at h2
      · intro name args hmem
        rcases hf.since _ hmem with h2 | h2 | h2
        · simp [loadEvent] at h2
        · simp [encEvent] at h2
        · simp [decEvent] at h2
    · rw [h1] at hl
      simp at hl
    · rw [hwp] at hc
      simp at hc
  all_goals
    have hwp : wp.fs F = none := by rw [hp.fs F (fun h => h)]; exact hnew
    obtain ⟨_, blob, k, b, u, kr, m, t, d, hk, hb, hu, hkr, hm, ha, hfs, htr, hPd, hfr⟩ :=
      editCmd_load_new sys F key (TrimSpace line) wp content hwp hl
    obtain ⟨dp, hdp, hPp⟩ := hp.trace
    have hdec : DecryptInvertsEncrypt sys.lib → ArmorLossless sys.lib → ∀ wx : World,
        wx.fs F = some blob → (decryptPgpFile sys F key (TrimSpace line) wx).1 = ("", none) := by
      intro hinv harm wx hwx
      obtain ⟨pm, hpm, hbin⟩ := hinv kr "" t m hm
      have := decryptPgpFile_ok sys F key (TrimSpace line) wx blob m k u b kr pm hwx
        (harm m blob ha) hk hb hu hkr hpm
      rw [this, hbin]
    have hB : ∀ e ∈ Event.WriteFile F blob 0o644 :: (d ++ dp),
        ¬ ((∃ name, e = Event.TempFile name) ∨ ∃ name args, e = Event.Run name args) := by
      intro e he
      rcases List.mem_cons.mp he with h1 | h1
      · subst h1
        simp
      · rcases List.mem_append.mp h1 with h2 | h2
        · rcases hPd e h2 with h3 | h3
          · rcases h3 with rfl | rfl | rfl | ⟨s, rfl⟩ <;> simp
          · rcases h3 with rfl | ⟨fn, rfl⟩ <;> simp
        · rcases hPp e h2 with rfl | rfl | rfl | ⟨s, rfl⟩ <;> simp
    refine Or.inr (Or.inr (Or.inr ⟨?_, key, line, blob, hkey, hline,
      ⟨k, b, u, kr, m, t, hk, hb, hu, hkr, hm, ha⟩, ?_, ?_, ?_, ?_, hdec⟩))
  · -- the scratch file cannot be created
    rw [h]
    exact Or.inl rfl
  · rw [h, since_of_append (d := .Print ("Error: " ++ err.text ++ "\n") ::
      .WriteFile F blob 0o644 :: (d ++ dp))
      (by have := (TempFile_error hT).trace
          obtain ⟨dT, hdT, hPT⟩ := this
          cases dT with
          | nil => simp [hdT, htr, hdp]
          | cons x xs => exact (hPT x (List.mem_cons_self _ _)).elim)]
    simp
  · intro l1 l2 e hs he
    rw [h, since_of_append (d := .Print ("Error: " ++ err.text ++ "\n") ::
      .WriteFile F blob 0o644 :: (d ++ dp))
      (by have := (TempFile_error hT).trace
          obtain ⟨dT, hdT, hPT⟩ := this
          cases dT with
          | nil => simp [hdT, htr, hdp]
          | cons x xs => exact (hPT x (List.mem_cons_self _ _)).elim)] at hs
    have hmem : e ∈ Event.Print ("Error: " ++ err.text ++ "\n") ::
        Event.WriteFile F blob 0o644 :: (d ++ dp) := by
      rw [hs]
      simp
    rcases List.mem_cons.mp hmem with h1 | h1
    · subst h1
      simp at he
    · exact absurd he (hB e h1)
  · intro _
    rw [h]
    simp only [log_fs]
    rw [(TempFile_error hT).fs F (fun h => h)]
    exact hfs
  · intro _
    rw [h]
    simp only [log_fs]
    rw [(TempFile_error hT).fs F (fun h => h)]
    exact hfs
  · -- the session runs: its exit is one of the six
    rw [h]
    simp only []
    rcases editCmd_session_cases sys F key (TrimSpace line) content editor nm w2 with
      ⟨hx, _⟩ | ⟨w0, updated, _, ⟨err, _, hs⟩ | ⟨_, hs⟩⟩
    · rcases hx with hx | hx | hx | hx
      · exact Or.inr (Or.inl hx)
      · exact Or.inr (Or.inr (Or.inl hx))
      · exact Or.inr (Or.inr (Or.inr (Or.inl hx)))
      · exact Or.inr (Or.inr (Or.inr (Or.inr (Or.inl hx))))
    · rw [hs]
      exact Or.inr (Or.inr (Or.inr (Or.inr (Or.inr (Or.inl rfl)))))
    · rw [hs]
      exact Or.inr (Or.inr (Or.inr (Or.inr (Or.inr (Or.inr rfl)))))
  · obtain ⟨rerr, ds, dl, _, _, hdl, _, hsince, _⟩ :=
      editCmd_session_since sys F rest w wp w2 key line content nm editor hp hT h
    have hdl2 : dl = .WriteFile F blob 0o644 :: (d ++ dp) := by
      have : dl ++ w.trace = (.WriteFile F blob 0o644 :: (d ++ dp)) ++ w.trace := by
        rw [← hdl, htr, hdp]
        simp
      exact List.append_cancel_right this
    rw [hsince, hdl2]
    simp
  · intro l1 l2 e hs he
    obtain ⟨rerr, ds, dl, _, _, hdl, _, hsince, _⟩ :=
      editCmd_session_since sys F rest w wp w2 key line content nm editor hp hT h
    have hdl2 : dl = .WriteFile F blob 0o644 :: (d ++ dp) := by
      have : dl ++ w.trace = (.WriteFile F blob 0o644 :: (d ++ dp)) ++ w.trace := by
        rw [← hdl, htr, hdp]
        simp
      exact List.append_cancel_right this
    rw [hsince, hdl2] at hs
    have hs2 : (.Remove nm rerr :: (ds ++ [.TempFile nm])) ++
        (.WriteFile F blob 0o644 :: (d ++ dp)) = l1 ++ e :: l2 := by
      rw [← hs]
      simp
    obtain ⟨A', hA'⟩ := suffix_of_split hs2 (fun hmem => hB e hmem he)
    rw [hA']
    simp
  · intro hno
    obtain ⟨hnone, _, hT2, hfT⟩ := TempFile_ok hT
    have hne : F ≠ nm := by
      intro heq
      rw [← heq, hfs] at hnone
      simp at hnone
    obtain ⟨rerr, ds, dl, hds, _, _, _, hsince, _, _, hrest⟩ :=
      editCmd_session_since sys F rest w wp w2 key line content nm editor hp hT h
    obtain ⟨ds2, hds2, hkeep⟩ :=
      editCmd_session_nowrite sys F key (TrimSpace line) content editor nm w2 hne
    have hdseq : ds2 = ds := List.append_cancel_right (hds2.symm.trans hds)
    subst hdseq
    have hnw : ∀ e ∈ ds2, notWriteFile e := fun e he =>
      hno (.Remove nm rerr :: ds2) dl nm (by rw [hsince]; simp) e (List.mem_cons_of_mem _ he)
    rw [hrest F hne, hkeep hnw, hfT.fs F hne]
    exact hfs
  · intro hx
    obtain ⟨hnone, _, hT2, hfT⟩ := TempFile_ok hT
    have hne : F ≠ nm := by
      intro heq
      rw [← heq, hfs] at hnone
      simp at hnone
    obtain ⟨rerr, ds, dl, _, _, _, _, _, _, _, hrest⟩ :=
      editCmd_session_since sys F rest w wp w2 key line content nm editor hp hT h
    rw [hrest F hne]
    rw [h] at hx
    simp only [] at hx
    rcases editCmd_session_cases sys F key (TrimSpace line) content editor nm w2 with
      ⟨_, hs⟩ | ⟨w0, updated, h0, ⟨err, _, hs⟩ | ⟨_, hs⟩⟩
    · rw [hs.fs F hne, hfT.fs F hne]
      exact hfs
    · rw [hs] at hx
      simp at hx
    · rw [hs] at hx
      simp at hx

/-- C4 amended, on the concrete system: editing a secret file that does not exist; the run
ends at `updated`, the initial blob `AE` was written before the scratch file and the editor,
and it decrypts to the empty string. -/
theorem new_file_initialized_witness :
    (toyWorld [("private.key", "Lrp1")]).fs "secrets.gpg" = none ∧
      (editCmd (toySys "p1\n" (some "FOO=bar\n") none) ["secrets.gpg"]
        (toyWorld [("private.key", "Lrp1")])).1 = .updated ∧
      ∃ blob, Event.WriteFile "secrets.gpg" blob 0o644 ∈
          (editCmd (toySys "p1\n" (some "FOO=bar\n") none) ["secrets.gpg"]
            (toyWorld [("private.key", "Lrp1")])).2.since (toyWorld [("private.key", "Lrp1")]) ∧
        (decryptPgpFile (toySys "p1\n" (some "FOO=bar\n") none) "secrets.gpg" "Lrp1"
          (TrimSpace "p1\n") (toyWorld [("secrets.gpg", blob)])).1 = ("", none) ∧
        ∀ l1 l2 e,
          (editCmd (toySys "p1\n" (some "FOO=bar\n") none) ["secrets.gpg"]
            (toyWorld [("private.key", "Lrp1")])).2.since (toyWorld [("private.key", "Lrp1")]) =
              l1 ++ e :: l2 →
          ((∃ name, e = .TempFile name) ∨ ∃ name args, e = .Run name args) →
          Event.WriteFile "secrets.gpg" blob 0o644 ∈ l2 := by
  have hu : (editCmd (toySys "p1\n" (some "FOO=bar\n") none) ["secrets.gpg"]
      (toyWorld [("private.key", "Lrp1")])).1 = .updated := by decide
  refine ⟨by decide, hu, ?_⟩
  rcases new_file_initialized (toySys "p1\n" (some "FOO=bar\n") none) "secrets.gpg" []
      (toyWorld [("private.key", "Lrp1")]) (by decide) with
    h | h | h | ⟨_, key, line, blob, hkey, hline, _, hmem, hord, _, _, hdec⟩
  · rw [hu] at h
    exact absurd h.1 (by decide)
  · rw [hu] at h
    exact absurd h.1 (by decide)
  · rw [hu] at h
    exact absurd h.1 (by decide)
  · have hk : key = "Lrp1" := by
      have : (toyWorld [("private.key", "Lrp1")]).fs "private.key" = some "Lrp1" := by decide
      rw [this] at hkey
      exact (Option.some.inj hkey).symm
    have hl : line = "p1\n" := by
      have : (toySys "p1\n" (some "FOO=bar\n") none).ReadString
          (toyWorld [("private.key", "Lrp1")]).clock = .ok "p1\n" := rfl
      rw [this] at hline
      exact (Except.ok.inj hline).symm
    subst hk hl
    exact ⟨blob, hmem,
      hdec toyLib_inverts toyLib_lossless _ (by simp [toyWorld, List.lookup]), hord⟩

/-! ## Commit atomicity -/

/-- When `editCmd.session` ends because the re-encryption fails and has not attempted a
write, the secret file is as it was when the session started. -/
theorem editCmd_session_encryptError (sys : Sys) (F key pass content editor name : String)
    (w : World) (hne : F ≠ name)
    (hex : (editCmd.session sys F key pass content editor name w).1 = .encryptError) :
    ∃ ds, (editCmd.session sys F key pass content editor name w).2.trace = ds ++ w.trace ∧
      ((∀ e ∈ ds, notWriteFile e) →
        (editCmd.session sys F key pass content editor name w).2.fs F = w.fs F) := by
  rcases editCmd_session_cases sys F key pass content editor name w with
    ⟨hx, _⟩ | ⟨w0, updated, h0, ⟨err, _, hs⟩ | ⟨_, hs⟩⟩
  · rw [hex] at hx
    simp at hx
  · obtain ⟨d0, hd0, _⟩ := h0.trace
    rcases encryptPgpFile_cases sys updated key pass F w0 with
      ⟨err2, _, hfs, hf⟩ | ⟨k, b, u, kr, m, a, w1, _, _, _, _, _, _, hf1, _, hW⟩
    · obtain ⟨d1, hd1, _⟩ := hf.trace
      refine ⟨.Print ("Error: " ++ err.text ++ "\n") :: (d1 ++ d0), ?_, fun _ => ?_⟩
      · rw [hs]
        simp [hd1, hd0]
      · rw [hs]
        simp only [log_fs]
        rw [hfs, h0.fs F hne]
    · obtain ⟨d1, hd1, _⟩ := hf1.trace
      refine ⟨.Print ("Error: " ++ err.text ++ "\n") :: .WriteFile F a 0o644 :: (d1 ++ d0), ?_,
        fun hno => ?_⟩
      · rw [hs, hW]
        simp [WriteFile_trace, hd1, hd0]
      · exact absurd rfl (hno (.WriteFile F a 0o644) (by simp) F a 0o644)
  · rw [hs] at hex
    simp at hex

/-- When a run of `editCmd` ends because the re-encryption fails and no write has been
attempted since the scratch file was created, the secret file is as `editCmd.load` left
it. -/
theorem editCmd_encryptError_cases (sys : Sys) (F : String) (rest : List String) (w : World)
    (hex : (editCmd sys (F :: rest) w).1 = .encryptError)
    (hno : ∀ l1 l2 name, (editCmd sys (F :: rest) w).2.since w = l1 ++ .TempFile name :: l2 →
      ∀ e ∈ l1, notWriteFile e) :
    ∃ key line wp content, w.fs "private.key" = some key ∧ sys.ReadString w.clock = .ok line ∧
      Frame (loadEvent F) (fun _ => False) w wp ∧
      (editCmd.load sys F key (TrimSpace line) wp).1 = .ok content ∧
      ((∃ x, (editCmd.load sys F key (TrimSpace line) wp).2.fs F = some x) →
        (editCmd sys (F :: rest) w).2.fs F =
          (editCmd.load sys F key (TrimSpace line) wp).2.fs F) ∧
      ∃ d, (editCmd sys (F :: rest) w).2.trace =
        d ++ (editCmd.load sys F key (TrimSpace line) wp).2.trace := by
  rcases editCmd_cases sys F rest w with
    ⟨hx, _⟩ | ⟨key, line, wp, hkey, hline, hp, ⟨ex, hl, h⟩ | ⟨content, hl,
      ⟨err, w2, hT, h⟩ | ⟨nm, w2, editor, hT, h⟩⟩⟩
  · rcases hx with hx | hx <;> rw [hx] at hex <;> simp at hex
  · rw [h] at hex
    rcases editCmd_load_exit sys F key (TrimSpace line) wp ex hl with rfl | rfl <;> simp at hex
  · rw [h] at hex
    simp at hex
  · obtain ⟨hnone, _, hT2, hfT⟩ := TempFile_ok hT
    rw [h] at hex
    simp only [] at hex
    obtain ⟨dp, hdp, _⟩ := hp.trace
    obtain ⟨dl, hdl, _⟩ := (editCmd_load_frame sys F key (TrimSpace line) wp).trace
    refine ⟨key, line, wp, content, hkey, hline, hp, hl, ?_, ?_⟩
    · rintro ⟨x, hx⟩
      have hne : F ≠ nm := by
        intro heq
        rw [← heq, hx] at hnone
        simp at hnone
      obtain ⟨ds, hds, hfs⟩ :=
        editCmd_session_encryptError sys F key (TrimSpace line) content editor nm w2 hne hex
      obtain ⟨rerr, hrtr, _, _⟩ := Remove_cases sys nm
        (editCmd.session sys F key (TrimSpace line) content editor nm w2).2
      have hsince : (editCmd sys (F :: rest) w).2.since w =
          (.Remove nm rerr :: ds) ++ .TempFile nm :: (dl ++ dp) := by
        rw [h]
        exact since_of_append (by simp [hrtr, hds, hT2, hdl, hdp])
      have hds2 : ∀ e ∈ ds, notWriteFile e := fun e he =>
        hno _ _ nm hsince e (List.mem_cons_of_mem _ he)
      rw [h]
      simp only []
      rw [(Remove_frame sys nm _).fs F hne, hfs hds2, hfT.fs F hne]
    · obtain ⟨ds, hds, _⟩ :=
        (editCmd_session_frame sys F key (TrimSpace line) content editor nm w2).trace
      obtain ⟨rerr, hrtr, _, _⟩ := Remove_cases sys nm
        (editCmd.session sys F key (TrimSpace line) content editor nm w2).2
      refine ⟨.Remove nm rerr :: (ds ++ [.TempFile nm]), ?_⟩
      rw [h]
      simp [hrtr, hds, hT2]

/-- C2. Commit atomicity.  (1) If `encryptPgpFile` returns without having attempted its final
write, it has failed and no file has changed, so the output file holds its previous content.
(2) The write is
attempted only when every earlier step (key parse, lock check, unlock, key ring construction,
encryption, armoring) has succeeded, so a failure of any of them is a failure before the
write.  (3) Consequently, when a run of `editCmd` ends because the re-encryption fails and no
write has been attempted since the scratch file was created: a secret file that existed before
the run holds its original content and still decrypts with the same key and passphrase; a
secret file that the run has created holds the initial blob, which still decrypts to the
empty plaintext (the library being assumed to invert its encryption and its armoring). -/
theorem encrypt_failure_atomic (sys : Sys) (P K Q F : String) (w : World) :
    ((∀ path data perm,
        Event.WriteFile path data perm ∉ (encryptPgpFile sys P K Q F w).2.since w) →
      (∃ err, (encryptPgpFile sys P K Q F w).1 = some err) ∧
        (encryptPgpFile sys P K Q F w).2.fs = w.fs) ∧
    (∀ path data perm,
      Event.WriteFile path data perm ∈ (encryptPgpFile sys P K Q F w).2.since w →
      path = F ∧ perm = 0o644 ∧
      ∃ k b u kr m, sys.lib.NewKeyFromArmored K = .ok k ∧ sys.lib.IsLocked k = .ok b ∧
        (if b then sys.lib.Unlock k Q else .ok k) = .ok u ∧ sys.lib.NewKeyRing u = .ok kr ∧
        sys.lib.Encrypt kr (sys.lib.NewPlainMessage P) none w.clock = .ok m ∧
        sys.lib.GetArmored m = .ok data) ∧
    (∀ rest, (editCmd sys (F :: rest) w).1 = .encryptError →
      (∀ l1 l2 name, (editCmd sys (F :: rest) w).2.since w = l1 ++ .TempFile name :: l2 →
        ∀ e ∈ l1, notWriteFile e) →
      (∀ c, w.fs F = some c →
        (editCmd sys (F :: rest) w).2.fs F = some c ∧
        ∃ key line content, w.fs "private.key" = some key ∧
          sys.ReadString w.clock = .ok line ∧
          (decryptPgpFile sys F key (TrimSpace line) w).1 = (content, none) ∧
          (decryptPgpFile sys F key (TrimSpace line) (editCmd sys (F :: rest) w).2).1 =
            (content, none)) ∧
      (w.fs F = none →
        ∃ blob, (editCmd sys (F :: rest) w).2.fs F = some blob ∧
          Event.WriteFile F blob 0o644 ∈ (editCmd sys (F :: rest) w).2.since w ∧
          (DecryptInvertsEncrypt sys.lib → ArmorLossless sys.lib →
            ∃ key line, w.fs "private.key" = some key ∧ sys.ReadString w.clock = .ok line ∧
              (decryptPgpFile sys F key (TrimSpace line) (editCmd sys (F :: rest) w).2).1 =
                ("", none)))) := by
  refine ⟨?_, ?_, ?_⟩
  · intro hno
    rcases encryptPgpFile_cases sys P K Q F w with
      ⟨err, herr, hfs, _⟩ | ⟨k, b, u, kr, m, a, w1, _, _, _, _, _, _, hf1, _, hW⟩
    · exact ⟨⟨err, herr⟩, hfs⟩
    · obtain ⟨d1, hd1, _⟩ := hf1.trace
      have hs : (encryptPgpFile sys P K Q F w).2.since w = .WriteFile F a 0o644 :: d1 := by
        rw [hW]
        exact since_of_append (by simp [WriteFile_trace, hd1])
      exact absurd (by rw [hs]; simp) (hno F a 0o644)
  · intro path data perm hmem
    rcases encryptPgpFile_cases sys P K Q F w with
      ⟨err, _, _, hf⟩ | ⟨k, b, u, kr, m, a, w1, hk, hb, hu, hkr, hm, ha, hf1, _, hW⟩
    · rcases hf.since _ hmem with h1 | ⟨fn, h1⟩ <;> simp at h1
    · obtain ⟨d1, hd1, hP1⟩ := hf1.trace
      have hs : (encryptPgpFile sys P K Q F w).2.since w = .WriteFile F a 0o644 :: d1 := by
        rw [hW]
        exact since_of_append (by simp [WriteFile_trace, hd1])
      rw [hs] at hmem
      rcases List.mem_cons.mp hmem with h1 | h1
      · simp only [Event.WriteFile.injEq] at h1
        obtain ⟨rfl, rfl, rfl⟩ := h1
        exact ⟨rfl, rfl, k, b, u, kr, m, hk, hb, hu, hkr, hm, ha⟩
      · rcases hP1 _ h1 with h2 | ⟨fn, h2⟩ <;> simp at h2
  · intro rest hex hno
    obtain ⟨key, line, wp, content, hkey, hline, hp, hl, hfs, d, hd⟩ :=
      editCmd_encryptError_cases sys F rest w hex hno
    constructor
    · intro c hc
      have hwp : wp.fs F = some c := by rw [hp.fs F (fun h => h)]; exact hc
      have hload := (editCmd_load_existing sys F key (TrimSpace line) wp c hwp).1
      have h1 : (editCmd.load sys F key (TrimSpace line) wp).2.fs F = some c := by
        rw [hload.fs F (fun h => h)]
        exact hwp
      have h2 : (editCmd sys (F :: rest) w).2.fs F = some c := by
        rw [hfs ⟨c, h1⟩]
        exact h1
      refine ⟨h2, key, line, content, hkey, hline, ?_, ?_⟩
      · rcases editCmd_load_cases sys F key (TrimSpace line) wp with
          ⟨hn, _⟩ | ⟨c2, w0, _, h0, ⟨err, s, _, h3⟩ | ⟨content2, h3, h4⟩⟩
        · rw [hwp] at hn
          simp at hn
        · rw [h3] at hl
          simp at hl
        · rw [h4] at hl
          simp only [Except.ok.injEq] at hl
          subst hl
          rw [← h3]
          exact (decryptPgpFile_fst_congr sys F key (TrimSpace line) w w0
            (by rw [h0.fs F (fun h => h), hp.fs F (fun h => h)])).symm
      · rcases editCmd_load_cases sys F key (TrimSpace line) wp with
          ⟨hn, _⟩ | ⟨c2, w0, _, h0, ⟨err, s, _, h3⟩ | ⟨content2, h3, h4⟩⟩
        · rw [hwp] at hn
          simp at hn
        · rw [h3] at hl
          simp at hl
        · rw [h4] at hl
          simp only [Except.ok.injEq] at hl
          subst hl
          rw [← h3]
          exact decryptPgpFile_fst_congr sys F key (TrimSpace line) w0 _
            (by rw [h2, h0.fs F (fun h => h), hwp])
    · intro hnew
      have hwp : wp.fs F = none := by rw [hp.fs F (fun h => h)]; exact hnew
      obtain ⟨_, blob, k, b, u, kr, m, t, dl, hk, hb, hu, hkr, hm, ha, hfsl, htr, _, _⟩ :=
        editCmd_load_new sys F key (TrimSpace line) wp content hwp hl
      obtain ⟨dp, hdp, _⟩ := hp.trace
      have h2 : (editCmd sys (F :: rest) w).2.fs F = some blob := by
        rw [hfs ⟨blob, hfsl⟩]
        exact hfsl
      refine ⟨blob, h2, ?_, fun hinv harm => ⟨key, line, hkey, hline, ?_⟩⟩
      · rw [since_of_append (d := d ++ .WriteFile F blob 0o644 :: (dl ++ dp))
          (by rw [hd, htr, hdp]; simp)]
        simp
      · obtain ⟨pm, hpm, hbin⟩ := hinv kr "" t m hm
        have := decryptPgpFile_ok sys F key (TrimSpace line) (editCmd sys (F :: rest) w).2 blob m
          k u b kr pm h2 (harm m blob ha) hk hb hu hkr hpm
        rw [this, hbin]

/-- C2, on the concrete system with a failing `Encrypt`: the re-encryption of an existing
secret file fails before the write; the file holds its original content. -/
theorem encrypt_failure_atomic_witness :
    (editCmd (failSys "p1\n" (some "FOO=baz\n")) ["secrets.gpg"]
        (toyWorld [("private.key", "Lrp1"), ("secrets.gpg", "AEFOO=bar\n")])).1 =
        .encryptError ∧
      (∀ e ∈ (editCmd (failSys "p1\n" (some "FOO=baz\n")) ["secrets.gpg"]
          (toyWorld [("private.key", "Lrp1"), ("secrets.gpg", "AEFOO=bar\n")])).2.since
          (toyWorld [("private.key", "Lrp1"), ("secrets.gpg", "AEFOO=bar\n")]),
        notWriteFile e) ∧
      (editCmd (failSys "p1\n" (some "FOO=baz\n")) ["secrets.gpg"]
        (toyWorld [("private.key", "Lrp1"), ("secrets.gpg", "AEFOO=bar\n")])).2.fs
          "secrets.gpg" = some "AEFOO=bar\n" := by
  have hall : ∀ e ∈ (editCmd (failSys "p1\n" (some "FOO=baz\n")) ["secrets.gpg"]
      (toyWorld [("private.key", "Lrp1"), ("secrets.gpg", "AEFOO=bar\n")])).2.since
      (toyWorld [("private.key", "Lrp1"), ("secrets.gpg", "AEFOO=bar\n")]),
      notWriteFile e := by decide
  refine ⟨by decide, hall, ?_⟩
  exact (((encrypt_failure_atomic (failSys "p1\n" (some "FOO=baz\n")) "" "" "" "secrets.gpg"
    (toyWorld [("private.key", "Lrp1"), ("secrets.gpg", "AEFOO=bar\n")])).2.2 [] (by decide)
    (fun l1 l2 name hs e he => hall e (by rw [hs]; exact List.mem_append_left _ he))).1
    "AEFOO=bar\n" (by decide)).1

/-! ## Wrong passphrase -/

/-- C6 as stated fails, twice.  First, the key `Lrp1` parses and is locked and `bad` does not
unlock it, but on a secret file that does not exist `decryptPgpFile` returns the error of
`os.ReadFile`, not the error of `Unlock`.  Second, the error returned for a wrong passphrase
need not differ from the one returned for a malformed key: on a library that reports both
failures with the same error, `encryptPgpFile` returns the same result for the locked key
`Lrp1` with the passphrase `bad` as for the malformed key `zz`. -/
theorem wrong_passphrase_counterexample :
    (¬ ∀ (sys : Sys) (F K Q : String) (w : World) (k : sys.lib.Key) (err : Error),
      sys.lib.NewKeyFromArmored K = .ok k → sys.lib.IsLocked k = .ok true →
      sys.lib.Unlock k Q = .error err →
      (decryptPgpFile sys F K Q w).1 = ("", some err)) ∧
    ¬ ∀ (sys : Sys) (P F K K2 Q : String) (w : World) (k : sys.lib.Key) (err err2 : Error),
      sys.lib.NewKeyFromArmored K = .ok k → sys.lib.IsLocked k = .ok true →
      sys.lib.Unlock k Q = .error err → sys.lib.NewKeyFromArmored K2 = .error err2 →
      (encryptPgpFile sys P K Q F w).1 ≠ (encryptPgpFile sys P K2 Q F w).1 := by
  constructor
  · intro h
    have h1 := h (toySys "" none none) "secrets.gpg" "Lrp1" "bad" (toyWorld [])
      ⟨"rsa", 2048, some "p1"⟩ (.Other "gopenpgp: error in unlocking key") rfl rfl rfl
    revert h1
    decide
  · intro h
    have h1 := h mumSys "FOO=bar\n" "secrets.gpg" "Lrp1" "zz" "bad" (toyWorld [])
      ⟨"rsa", 2048, some "p1"⟩ (.Other "gopenpgp: error") (.Other "gopenpgp: error")
      rfl rfl rfl rfl
    revert h1
    decide

/-- C6, amended. Wrong-passphrase rejection: when the armored key parses and reports itself
locked and unlocking it with the passphrase fails with `err`, `decryptPgpFile` returns the
empty string together with an error and never calls `Decrypt`; the error is that of
`os.ReadFile` when the secret file does not exist, that of the de-armoring when the content of
the file is not an armored message, and `err` when the file is read and de-armored.
`encryptPgpFile` returns `err` without calling `Encrypt`, attempting a write or changing a
file.  For a malformed key, whose parse fails with `err2`, `encryptPgpFile` returns `err2`, and
so does `decryptPgpFile` on a file that is read and de-armored; the result for the wrong
passphrase equals the result for the malformed key exactly when `err2 = err`, so the two are
told apart exactly when the errors of the library are. -/
theorem wrong_passphrase_rejected (sys : Sys) (P F K Q : String) (w : World)
    (k : sys.lib.Key) (err : Error)
    (hk : sys.lib.NewKeyFromArmored K = .ok k) (hb : sys.lib.IsLocked k = .ok true)
    (hu : sys.lib.Unlock k Q = .error err) :
    (∃ e, (decryptPgpFile sys F K Q w).1 = ("", some e)) ∧
      Event.Lib .Decrypt ∉ (decryptPgpFile sys F K Q w).2.since w ∧
      (w.fs F = none → (decryptPgpFile sys F K Q w).1 = ("", some (.ErrNotExist F))) ∧
      (∀ a e, w.fs F = some a → sys.lib.NewPGPMessageFromArmored a = .error e →
        (decryptPgpFile sys F K Q w).1 = ("", some e)) ∧
      (∀ a m, w.fs F = some a → sys.lib.NewPGPMessageFromArmored a = .ok m →
        (decryptPgpFile sys F K Q w).1 = ("", some err)) ∧
      (encryptPgpFile sys P K Q F w).1 = some err ∧
      Event.Lib .Encrypt ∉ (encryptPgpFile sys P K Q F w).2.since w ∧
      (∀ path data perm,
        Event.WriteFile path data perm ∉ (encryptPgpFile sys P K Q F w).2.since w) ∧
      (encryptPgpFile sys P K Q F w).2.fs = w.fs ∧
      ∀ (K2 : String) (err2 : Error), sys.lib.NewKeyFromArmored K2 = .error err2 →
        (encryptPgpFile sys P K2 Q F w).1 = some err2 ∧
        ((encryptPgpFile sys P K2 Q F w).1 = (encryptPgpFile sys P K Q F w).1 ↔ err2 = err) ∧
        ∀ a m, w.fs F = some a → sys.lib.NewPGPMessageFromArmored a = .ok m →
          (decryptPgpFile sys F K2 Q w).1 = ("", some err2) ∧
          ((decryptPgpFile sys F K2 Q w).1 = (decryptPgpFile sys F K Q w).1 ↔ err2 = err) := by
  have hmiss : w.fs F = none → decryptPgpFile sys F K Q w =
      (("", some (.ErrNotExist F)), (w.log (.Call .decryptPgpFile)).log (.ReadFile F)) := by
    intro hfs
    unfold decryptPgpFile ReadFile
    simp [hfs]
  have hbad : ∀ a e, w.fs F = some a → sys.lib.NewPGPMessageFromArmored a = .error e →
      decryptPgpFile sys F K Q w = (("", some e),
        ((w.log (.Call .decryptPgpFile)).log (.ReadFile F)).log
          (.Lib .NewPGPMessageFromArmored)) := by
    intro a e hfs hm
    unfold decryptPgpFile ReadFile
    simp [hfs, hm]
  have hdec : ∀ a m, w.fs F = some a → sys.lib.NewPGPMessageFromArmored a = .ok m →
      decryptPgpFile sys F K Q w = (("", some err),
        (((((w.log (.Call .decryptPgpFile)).log (.ReadFile F)).log
          (.Lib .NewPGPMessageFromArmored)).log (.Lib .NewKeyFromArmored)).log
          (.Lib .IsLocked)).log (.Lib .Unlock)) := by
    intro a m hfs hm
    unfold decryptPgpFile ReadFile
    simp [hfs, hm, hk, hb, hu]
  have henc : encryptPgpFile sys P K Q F w = (some err,
      (((w.log (.Call .encryptPgpFile)).log (.Lib .NewKeyFromArmored)).log
        (.Lib .IsLocked)).log (.Lib .Unlock)) := by
    unfold encryptPgpFile
    simp [hk, hb, hu]
  have hencs : (encryptPgpFile sys P K Q F w).2.since w = [.Lib .Unlock, .Lib .IsLocked,
      .Lib .NewKeyFromArmored, .Call .encryptPgpFile] := by
    rw [henc]
    exact since_of_append (by simp)
  have hres : (∃ e, (decryptPgpFile sys F K Q w).1 = ("", some e)) ∧
      Event.Lib .Decrypt ∉ (decryptPgpFile sys F K Q w).2.since w := by
    cases hfs : w.fs F with
    | none =>
      rw [hmiss hfs]
      refine ⟨⟨_, rfl⟩, ?_⟩
      rw [since_of_append (d := [.ReadFile F, .Call .decryptPgpFile]) (by simp)]
      simp
    | some a =>
      cases hm : sys.lib.NewPGPMessageFromArmored a with
      | error e =>
        rw [hbad a e hfs hm]
        refine ⟨⟨_, rfl⟩, ?_⟩
        rw [since_of_append (d := [.Lib .NewPGPMessageFromArmored, .ReadFile F,
          .Call .decryptPgpFile]) (by simp)]
        simp
      | ok m =>
        rw [hdec a m hfs hm]
        refine ⟨⟨_, rfl⟩, ?_⟩
        rw [since_of_append (d := [.Lib .Unlock, .Lib .IsLocked, .Lib .NewKeyFromArmored,
          .Lib .NewPGPMessageFromArmored, .ReadFile F, .Call .decryptPgpFile]) (by simp)]
        simp
  refine ⟨hres.1, hres.2, fun hfs => by rw [hmiss hfs],
    fun a e hfs hm => by rw [hbad a e hfs hm], fun a m hfs hm => by rw [hdec a m hfs hm],
    by rw [henc], by rw [hencs]; simp, ?_, by rw [henc]; rfl, ?_⟩
  · intro path data perm
    rw [hencs]
    simp
  · intro K2 err2 hk2
    have henc2 : (encryptPgpFile sys P K2 Q F w).1 = some err2 := by
      unfold encryptPgpFile
      simp [hk2]
    refine ⟨henc2, by rw [henc2, henc]; simp, fun a m hfs hm => ?_⟩
    have hdec2 : (decryptPgpFile sys F K2 Q w).1 = ("", some err2) := by
      unfold decryptPgpFile ReadFile
      simp [hfs, hm, hk2]
    refine ⟨hdec2, ?_⟩
    rw [hdec2, hdec a m hfs hm]
    simp

/-- C6 amended, on the concrete system: the passphrase `bad` does not unlock the key; the
secret file is read and de-armored, and the error returned is that of `Unlock`. -/
theorem wrong_passphrase_rejected_witness :
    toyLib.NewKeyFromArmored "Lrp1" = .ok ⟨"rsa", 2048, some "p1"⟩ ∧
      toyLib.IsLocked ⟨"rsa", 2048, some "p1"⟩ = .ok true ∧
      toyLib.Unlock ⟨"rsa", 2048, some "p1"⟩ "bad" =
        .error (.Other "gopenpgp: error in unlocking key") ∧
      (decryptPgpFile (toySys "" none none) "secrets.gpg" "Lrp1" "bad"
        (toyWorld [("secrets.gpg", "AEFOO=bar\n")])).1 =
          ("", some (.Other "gopenpgp: error in unlocking key")) ∧
      (encryptPgpFile (toySys "" none none) "FOO=baz\n" "Lrp1" "bad" "secrets.gpg"
        (toyWorld [("secrets.gpg", "AEFOO=bar\n")])).1 =
          some (.Other "gopenpgp: error in unlocking key") :=
  ⟨rfl, rfl, rfl,
    (wrong_passphrase_rejected (toySys "" none none) "FOO=baz\n" "secrets.gpg" "Lrp1" "bad"
      (toyWorld [("secrets.gpg", "AEFOO=bar\n")]) ⟨"rsa", 2048, some "p1"⟩
      (.Other "gopenpgp: error in unlocking key") rfl rfl rfl).2.2.2.2.1 "AEFOO=bar\n"
      "EFOO=bar\n" (by decide) rfl,
    (wrong_passphrase_rejected (toySys "" none none) "FOO=baz\n" "secrets.gpg" "Lrp1" "bad"
      (toyWorld [("secrets.gpg", "AEFOO=bar\n")]) ⟨"rsa", 2048, some "p1"⟩
      (.Other "gopenpgp: error in unlocking key") rfl rfl rfl).2.2.2.2.2.1⟩

/-! ## The loop of `envCmd` against the reference reading -/

theorem cutAt_none (sep : Char) (s : List Char) (h : s.contains sep = false) :
    cutAt sep s = none := by
  induction s with
  | nil => rfl
  | cons c cs ih =>
    simp only [List.contains_cons, Bool.or_eq_false_iff, beq_eq_false_iff_ne, ne_eq] at h
    have hne : ¬ c = sep := fun heq => h.1 heq.symm
    simp only [cutAt, hne, if_false, ih h.2]

theorem cutAt_some (sep : Char) (s : List Char) (h : s.contains sep = true) :
    cutAt sep s =
      some (s.takeWhile (fun c => c != sep), (s.dropWhile (fun c => c != sep)).drop 1) := by
  induction s with
  | nil => simp at h
  | cons c cs ih =>
    by_cases hc : c = sep
    · subst hc
      simp [cutAt, List.takeWhile, List.dropWhile]
    · have hcs : cs.contains sep = true := by
        simp only [List.contains_cons, Bool.or_eq_true, beq_iff_eq] at h
        rcases h with h | h
        · exact absurd h.symm hc
        · exact h
      have hb : (c != sep) = true := by simpa using hc
      simp only [cutAt, hc, if_false, ih hcs, List.takeWhile, List.dropWhile, hb]

theorem genSplit_cons_ne (sep c : Char) (hc : c ≠ sep) (n : Nat) (cs : List Char) :
    genSplit sep (n + 1) (c :: cs) = (genSplit sep (n + 1) cs).modifyHead (List.cons c) := by
  cases n with
  | zero => simp [genSplit, List.modifyHead]
  | succ n =>
    simp only [genSplit, cutAt, hc, if_false]
    cases cutAt sep cs with
    | none => simp [List.modifyHead]
    | some ab => simp [List.modifyHead]

theorem genSplit_eq_splitOn (sep : Char) (s : List Char) :
    ∀ n, s.count sep < n → genSplit sep n s = s.splitOn sep := by
  induction s with
  | nil =>
    intro n hn
    cases n with
    | zero => simp at hn
    | succ n =>
      cases n with
      | zero => simp [genSplit, List.splitOn]
      | succ n => simp [genSplit, cutAt, List.splitOn]
  | cons c cs ih =>
    intro n hn
    by_cases hc : c = sep
    · subst hc
      simp only [List.count_cons_self] at hn
      obtain ⟨k, rfl⟩ : ∃ k, n = k + 2 := ⟨n - 2, by omega⟩
      have := ih (k + 1) (by omega)
      simp only [genSplit, cutAt, if_true, this, List.splitOn, List.splitOnP_cons, beq_self_eq_true]
    · have hcount : (c :: cs).count sep = cs.count sep := by
        simp [List.count_cons, hc]
      rw [hcount] at hn
      obtain ⟨k, rfl⟩ : ∃ k, n = k + 1 := ⟨n - 1, by omega⟩
      rw [genSplit_cons_ne sep c hc, ih (k + 1) hn]
      have hb : (c == sep) = false := by simpa using hc
      simp only [List.splitOn, List.splitOnP_cons, hb]
      rfl

theorem Split_eq_lines (content : String) :
    Split content '\n' = (Reference.lines content).map String.mk := by
  unfold Split Reference.lines
  rw [genSplit_eq_splitOn _ _ _ (Nat.lt_succ_self _)]

theorem trim_eq_nil_iff (s : List Char) :
    trimRight (trimLeft s) = [] ↔ s.all isSpace = true := by
  have h1 : trimRight (trimLeft s) = (s.dropWhile isSpace).rdropWhile isSpace := rfl
  rw [h1, List.rdropWhile_eq_nil_iff, List.all_eq_true]
  constructor
  · intro h x hx
    rw [← List.takeWhile_append_dropWhile isSpace s] at hx
    rcases List.mem_append.mp hx with h2 | h2
    · exact List.mem_takeWhile_imp h2
    · exact h x h2
  · intro h x hx
    exact h x ((List.dropWhile_sublist isSpace).subset hx)

theorem TrimSpace_eq_trimmed (s : List Char) : TrimSpace ⟨s⟩ = Reference.trimmed s := rfl

/-- One turn of the loop of `envCmd` makes the call of `os.Setenv` that the reference reading
of the line tells, or none. -/
theorem envCmd_line_cases (w : World) (line : List Char) :
    (Reference.assignment line = none ∧
      (envCmd.line w ⟨line⟩ = w ∨ ∃ s, envCmd.line w ⟨line⟩ = w.log (.Print s))) ∨
    (∃ key value, Reference.assignment line = some (key, value) ∧
      envCmd.line w ⟨line⟩ = (Setenv key value w).2) := by
  unfold envCmd.line Reference.assignment
  have hblank : (TrimSpace ⟨line⟩ = "") ↔ Reference.blank line = true := by
    unfold TrimSpace Reference.blank
    rw [← trim_eq_nil_iff]
    constructor
    · intro h
      exact congrArg String.data h
    · intro h
      exact String.ext h
  have hcomment : HasPrefix ⟨line⟩ '#' = Reference.comment line := by
    unfold HasPrefix Reference.comment
    cases line with
    | nil => rfl
    | cons c cs => simp
  by_cases hb : Reference.blank line = true
  · left
    simp [hb, hblank.mpr hb]
  · have hb2 : ¬ TrimSpace ⟨line⟩ = "" := fun h => hb (hblank.mp h)
    have hb3 : Reference.blank line = false := by simpa using hb
    by_cases hc : Reference.comment line = true
    · left
      simp [hc, hcomment]
    · have hc3 : Reference.comment line = false := by simpa using hc
      simp only [hb2, hcomment, hc3, hb3, decide_False, Bool.or_self, Bool.false_eq_true,
        if_false, SplitN]
      by_cases he : line.contains '=' = true
      · right
        refine ⟨Reference.trimmed (line.takeWhile (fun c => c != '=')),
          Reference.trimmed ((line.dropWhile (fun c => c != '=')).drop 1), ?_, ?_⟩
        · rw [if_pos he]
        · simp only [genSplit, cutAt_some _ _ he, List.map]
          rfl
      · have he3 : line.contains '=' = false := by simpa using he
        left
        refine ⟨by rw [if_neg he], Or.inr ⟨"# Invalid line: " ++ String.mk line ++ "\n", ?_⟩⟩
        simp only [genSplit, cutAt_none _ _ he3, List.map]

theorem Setenv_snd (key value : String) (w : World) :
    (Setenv key value w).2.trace = .Setenv key value :: w.trace ∧
      (Setenv key value w).2.environ = setenv w.environ (key, value) ∧
      (Setenv key value w).2.fs = w.fs := by
  unfold Setenv setenv
  simp only []
  split <;> simp

theorem setenvCalls_append (d2 d1 : List Event) :
    setenvCalls (d2 ++ d1) = setenvCalls d1 ++ setenvCalls d2 := by
  simp [setenvCalls, List.filterMap_append]

theorem setenvCalls_nil_of (d : List Event) (h : ∀ e ∈ d, ∀ k v, e ≠ .Setenv k v) :
    setenvCalls d = [] := by
  unfold setenvCalls
  rw [List.filterMap_eq_nil_iff]
  intro e he
  have := h e (List.mem_reverse.mp he)
  cases e with
  | Setenv k v => exact absurd rfl (this k v)
  | _ => rfl

/-- The loop of `envCmd` makes the calls of `os.Setenv` that the reference reading tells, in
order, and changes nothing but the environment. -/
theorem envCmd_loop (lines : List (List Char)) :
    ∀ w : World, ∃ d, ((lines.map String.mk).foldl envCmd.line w).trace = d ++ w.trace ∧
      setenvCalls d = lines.filterMap Reference.assignment ∧
      ((lines.map String.mk).foldl envCmd.line w).environ =
        (lines.filterMap Reference.assignment).foldl setenv w.environ ∧
      ((lines.map String.mk).foldl envCmd.line w).fs = w.fs := by
  induction lines with
  | nil =>
    intro w
    exact ⟨[], by simp, by simp [setenvCalls], by simp, by simp⟩
  | cons l ls ih =>
    intro w
    simp only [List.map_cons, List.foldl_cons]
    obtain ⟨d2, hd2, hc2, he2, hf2⟩ := ih (envCmd.line w ⟨l⟩)
    rcases envCmd_line_cases w l with ⟨hnone, h | ⟨s, h⟩⟩ | ⟨key, value, hsome, h⟩
    · rw [h] at hd2 he2 hf2 ⊢
      exact ⟨d2, hd2, by simp [List.filterMap_cons, hnone, hc2],
        by simp [List.filterMap_cons, hnone, he2], hf2⟩
    · rw [h] at hd2 he2 hf2 ⊢
      refine ⟨d2 ++ [.Print s], by simp [hd2], ?_, ?_, hf2⟩
      · have e1 : setenvCalls [Event.Print s] = [] := rfl
        rw [setenvCalls_append, e1, hc2]
        simp [List.filterMap_cons, hnone]
      · simp [List.filterMap_cons, hnone, he2]
    · obtain ⟨ht, he, hf⟩ := Setenv_snd key value w
      rw [h] at hd2 he2 hf2 ⊢
      refine ⟨d2 ++ [.Setenv key value], by simp [hd2, ht], ?_, ?_, by rw [hf2, hf]⟩
      · have e1 : setenvCalls [Event.Setenv key value] = [(key, value)] := rfl
        rw [setenvCalls_append, e1, hc2]
        simp [List.filterMap_cons, hsome]
      · simp [List.filterMap_cons, hsome, he2, he]

theorem lookup_setEntry_self (key value : String) (env : List (String × String)) :
    (setEntry key value env).lookup key = some value := by
  induction env with
  | nil => simp [setEntry, List.lookup]
  | cons kv rest ih =>
    obtain ⟨k, v⟩ := kv
    unfold setEntry
    split
    · simp [List.lookup]
    · rename_i hne
      have : (key == k) = false := by simpa using fun h => hne h.symm
      simp [List.lookup, this, ih]

theorem lookup_setEntry_ne (key value k2 : String) (hne : k2 ≠ key)
    (env : List (String × String)) :
    (setEntry key value env).lookup k2 = env.lookup k2 := by
  induction env with
  | nil =>
    have : (k2 == key) = false := by simpa using hne
    simp [setEntry, List.lookup, this]
  | cons kv rest ih =>
    obtain ⟨k, v⟩ := kv
    unfold setEntry
    split
    · rename_i heq
      subst heq
      have : (k2 == k) = false := by simpa using hne
      simp [List.lookup, this]
    · by_cases h2 : k2 = k
      · subst h2
        simp [List.lookup]
      · have : (k2 == k) = false := by simpa using h2
        simp [List.lookup, this, ih]

/-- After a sequence of calls of `os.Setenv`, a key holds the value of the last call that
names it, when `os.Setenv` accepts that call. -/
theorem foldl_setenv_lookup (l : List (String × String)) (env : List (String × String))
    (key value : String) (h : l.reverse.lookup key = some value)
    (hv : validEnv key value = true) : (l.foldl setenv env).lookup key = some value := by
  induction l using List.reverseRecOn with
  | nil => simp [List.lookup] at h
  | append_singleton init kv ih =>
    obtain ⟨k, v⟩ := kv
    simp only [List.reverse_append, List.reverse_cons, List.reverse_nil, List.nil_append,
      List.singleton_append, List.foldl_append, List.foldl_cons, List.foldl_nil] at h ⊢
    by_cases hk : key = k
    · subst hk
      simp only [List.lookup, beq_self_eq_true, Option.some.injEq] at h
      subst h
      simp only [setenv, hv, if_true]
      exact lookup_setEntry_self _ _ _
    · have hb : (key == k) = false := by simpa using hk
      simp only [List.lookup, hb] at h
      unfold setenv
      split
      · rw [lookup_setEntry_ne _ _ _ hk]
        exact ih h
      · exact ih h

/-- A run of `envCmd` whose decryption succeeds: before the loop it only reads, and after the
loop it calls `os.Setenv` no more. -/
theorem envCmd_run (sys : Sys) (F : String) (rest : List String) (w : World)
    (key line content : String) (hkey : w.fs "private.key" = some key)
    (hline : sys.ReadString w.clock = .ok line)
    (hdec : (decryptPgpFile sys F key (TrimSpace line) w).1 = (content, none)) :
    ∃ wd dsh, Frame (fun e => loadEvent F e ∨ decEvent F e) (fun _ => False) w wd ∧
      (∀ e ∈ dsh, ∀ k v, e ≠ .Setenv k v) ∧
      (envCmd sys (F :: rest) w).trace =
        dsh ++ ((Split content '\n').foldl envCmd.line wd).trace ∧
      (envCmd sys (F :: rest) w).environ =
        ((Split content '\n').foldl envCmd.line wd).environ := by
  unfold envCmd ReadFile promptPassword
  simp only [log_fs, hkey, log_clock, hline]
  have hp : Frame (fun e => loadEvent F e ∨ decEvent F e) (fun _ => False) w
      (((w.log (.ReadFile "private.key")).log (.Call .promptPassword)).log
        (.Print "Enter passphrase for private key: ")).tick := by
    repeat (first | exact Frame.refl _ _ _ | apply Frame.tick | apply Frame.log)
    all_goals simp [loadEvent]
  have hd := decryptPgpFile_fst_congr sys F key (TrimSpace line)
    w (((w.log (.ReadFile "private.key")).log (.Call .promptPassword)).log
      (.Print "Enter passphrase for private key: ")).tick rfl
  have hfr := decryptPgpFile_frame sys F key (TrimSpace line)
    (((w.log (.ReadFile "private.key")).log (.Call .promptPassword)).log
      (.Print "Enter passphrase for private key: ")).tick
  rw [hdec] at hd
  generalize decryptPgpFile sys F key (TrimSpace line)
    (((w.log (.ReadFile "private.key")).log (.Call .promptPassword)).log
      (.Print "Enter passphrase for private key: ")).tick = rd at hd hfr ⊢
  obtain ⟨⟨c, e⟩, wd⟩ := rd
  simp only [Prod.mk.injEq] at hd
  obtain ⟨rfl, rfl⟩ := hd
  simp only []
  refine ⟨wd, ?_⟩
  have hwd : Frame (fun e => loadEvent F e ∨ decEvent F e) (fun _ => False) w wd :=
    Frame.step hp hfr (fun e he => Or.inr he) (fun _ h => h)
  unfold RunShell
  simp only [log_clock, log_environ]
  generalize List.foldl envCmd.line wd (Split c '\n') = wL
  generalize (if Getenv "SHELL" wL = "" then "/bin/sh" else Getenv "SHELL" wL) = shell
  cases sys.Shell wL.clock shell wL.environ with
  | none => exact ⟨[.Run shell []], hwd, by simp, by simp, by simp⟩
  | some err =>
    exact ⟨[.Print ("Error starting new shell: " ++ err.text ++ "\n"), .Run shell []], hwd,
      by simp, by simp, by simp⟩

/-! ## Environment mapping -/

/-- C10. Environment mapping: for every content that `decryptPgpFile` returns to `envCmd`,
the calls of `os.Setenv` that `envCmd` makes are, in order, the assignments of the reference
reading of the content (split on newlines; blank lines and lines starting with `#` ignored; a
line without `=` makes no assignment; any other line assigns the trimmed text before its
first `=` to the trimmed text after it); the environment `envCmd` ends with is the one these
calls produce; and a later line overrides an earlier one: a key holds the value of the last
line assigning it, when `os.Setenv` accepts that assignment. -/
theorem envCmd_assignments (sys : Sys) (F : String) (rest : List String) (w : World)
    (key line content : String) (hkey : w.fs "private.key" = some key)
    (hline : sys.ReadString w.clock = .ok line)
    (hdec : (decryptPgpFile sys F key (TrimSpace line) w).1 = (content, none)) :
    setenvCalls ((envCmd sys (F :: rest) w).since w) = Reference.assignments content ∧
      (envCmd sys (F :: rest) w).environ =
        (Reference.assignments content).foldl setenv w.environ ∧
      ∀ k v, Reference.value content k = some v → validEnv k v = true →
        Getenv k (envCmd sys (F :: rest) w) = v := by
  obtain ⟨wd, dsh, hwd, hsh, htr, henv⟩ := envCmd_run sys F rest w key line content hkey hline hdec
  obtain ⟨dl, hdl, hcl, hel, _⟩ := envCmd_loop (Reference.lines content) wd
  rw [← Split_eq_lines] at hdl hel
  obtain ⟨dp, hdp, hPp⟩ := hwd.trace
  have henv2 : (envCmd sys (F :: rest) w).environ =
      (Reference.assignments content).foldl setenv w.environ := by
    rw [henv, hel, hwd.environ]
    rfl
  refine ⟨?_, henv2, ?_⟩
  · rw [since_of_append (d := dsh ++ (dl ++ dp)) (by rw [htr, hdl, hdp]; simp)]
    rw [setenvCalls_append, setenvCalls_append, hcl, setenvCalls_nil_of dsh hsh,
      setenvCalls_nil_of dp]
    · simp [Reference.assignments]
    · intro e he k v
      rcases hPp e he with h1 | h1
      · rcases h1 with rfl | rfl | rfl | ⟨s, rfl⟩ <;> simp
      · rcases h1 with rfl | rfl | ⟨fn, rfl⟩ <;> simp
  · intro k v hval hv
    unfold Getenv
    rw [henv2, foldl_setenv_lookup _ _ k v hval hv]

/-- C10, on the concrete system: a content with a comment, a blank line, a value containing
`=`, a line without `=` and a key assigned twice. -/
theorem envCmd_assignments_witness :
    (decryptPgpFile (toySys "p1\n" none none) "secrets.gpg" "Lrp1" (TrimSpace "p1\n")
        (toyWorld [("private.key", "Lrp1"),
          ("secrets.gpg", "AEFOO=bar\n# c\n\n  A = b=c \nnoeq\nFOO=baz")])).1 =
        ("FOO=bar\n# c\n\n  A = b=c \nnoeq\nFOO=baz", none) ∧
      Reference.assignments "FOO=bar\n# c\n\n  A = b=c \nnoeq\nFOO=baz" =
        [("FOO", "bar"), ("A", "b=c"), ("FOO", "baz")] ∧
      setenvCalls ((envCmd (toySys "p1\n" none none) ["secrets.gpg"]
        (toyWorld [("private.key", "Lrp1"),
          ("secrets.gpg", "AEFOO=bar\n# c\n\n  A = b=c \nnoeq\nFOO=baz")])).since
        (toyWorld [("private.key", "Lrp1"),
          ("secrets.gpg", "AEFOO=bar\n# c\n\n  A = b=c \nnoeq\nFOO=baz")])) =
        Reference.assignments "FOO=bar\n# c\n\n  A = b=c \nnoeq\nFOO=baz" :=
  ⟨by decide, by decide,
    (envCmd_assignments (toySys "p1\n" none none) "secrets.gpg" []
      (toyWorld [("private.key", "Lrp1"),
        ("secrets.gpg", "AEFOO=bar\n# c\n\n  A = b=c \nnoeq\nFOO=baz")])
      "Lrp1" "p1\n" "FOO=bar\n# c\n\n  A = b=c \nnoeq\nFOO=baz" (by decide) rfl
      (by decide)).1⟩

end Vlt
